import Mathlib

/-!
Verification development for the tatc auto-battler combat core
(`src/composables/useGame.ts`, together with `src/logic/types.ts` and
`src/logic/utils.ts`).

The embedding below is a shallow, purely functional translation of the
simulation logic.  Conventions:

* Unit ids (strings produced by `id()` in the source) are modelled as `Nat`;
  they are opaque tokens compared for equality and by `<` only.
* Grid cells are `Int × Int` pairs, mirroring the `x`/`y` fields of units.
* JavaScript `Map` objects are modelled as association lists with
  insert-or-overwrite-in-place semantics (`setA`), matching `Map.set`, and
  first-match lookup (`getA`), matching `Map.get`.
* `Array.prototype.sort` (stable, ES2019) is modelled by `sortByCmp`, a stable
  insertion sort driven by the same numeric comparator.
* `Date.now()` is a `now : Nat` parameter threaded into the functions that
  read it.
* The single-cell move animation (`animateMove`) completes between two ticks
  (200ms animation vs 400ms tick interval), so logical positions update after
  the history entry of the tick is recorded and before the next tick starts.
  The model applies resolved moves at the end of `tick`, after the history
  entry is appended, which reproduces the observable order of the source.
* Visual-effect `setTimeout` removals and the test-output log are presentation
  concerns and are not modelled beyond the appends performed by `attack`.
* `startBattle` places team B with `Math.random()`; it is not modelled.  All
  theorems below are about states given explicitly or about the deterministic
  operations `placeUnit`, `tick`, `endRound`, `attack` and their components.
-/

/-- Teams, as in `types.ts` (`Team = 'A' | 'B'`). -/
inductive Team where
  | A
  | B
deriving DecidableEq, Repr

/-- Unit archetypes, as in `types.ts` (`UnitType = 'melee' | 'archer'`). -/
inductive UnitType where
  | melee
  | archer
deriving DecidableEq, Repr

/-- Roles, as in `types.ts` (`Role = 'Soldier' | 'Archer'`). -/
inductive Role where
  | Soldier
  | Archer
deriving DecidableEq, Repr

/-- A grid cell, the `{x, y}` coordinate pair of the source. -/
abbrev Cell := Int × Int

/-- The `Unit` record of `types.ts` (battle-relevant fields; the animation
fields are represented by the move-application model described above). -/
structure GUnit where
  uid : Nat
  team : Team
  utype : UnitType
  x : Int
  y : Int
  hp : Int
  maxHp : Int
  atk : Int
  range : Nat
  canTaunt : Bool
  invisibleTill : Option Nat
  lockedTargetId : Option Nat
  lastAttackAt : Nat
  attackCooldownMs : Nat
deriving DecidableEq, Repr

/-- The position of a unit as a cell. -/
def posOf (u : GUnit) : Cell := (u.x, u.y)

/-- `BOARD_WIDTH` from `useGame.ts`. -/
def BOARD_WIDTH : Int := 5

/-- `BOARD_HEIGHT` from `useGame.ts`. -/
def BOARD_HEIGHT : Int := 8

/-- The bounds check `x >= 0 && x < BOARD_WIDTH && y >= 0 && y < BOARD_HEIGHT`
used throughout `useGame.ts`. -/
def inBounds (c : Cell) : Bool :=
  0 ≤ c.1 && c.1 < BOARD_WIDTH && 0 ≤ c.2 && c.2 < BOARD_HEIGHT

/-- `manhattan` from `utils.ts` / the local helper in `useGame.ts`:
`|ax-bx| + |ay-by|`. -/
def manhattan (a b : Cell) : Nat :=
  (a.1 - b.1).natAbs + (a.2 - b.2).natAbs

/-- `chebyshev` from `utils.ts`: `max(|ax-bx|, |ay-by|)`. -/
def chebyshev (a b : Cell) : Nat :=
  max (a.1 - b.1).natAbs (a.2 - b.2).natAbs

/-- Association-list lookup, modelling `Map.get` (first matching key). -/
def getA {κ ν : Type} [DecidableEq κ] (k : κ) : List (κ × ν) → Option ν
  | [] => none
  | (k', v) :: t => if k' = k then some v else getA k t

/-- Association-list insert-or-overwrite, modelling `Map.set`: an existing key
keeps its position in iteration order, a new key is appended. -/
def setA {κ ν : Type} [DecidableEq κ] (k : κ) (v : ν) : List (κ × ν) → List (κ × ν)
  | [] => [(k, v)]
  | (k', v') :: t => if k' = k then (k, v) :: t else (k', v') :: setA k v t

/-- Stable insertion of `x` into a list sorted by the numeric comparator
`cmp` (negative means "strictly before"): `x` is placed before the first
element it does not come strictly after, so ties keep original order,
matching the stable `Array.prototype.sort`. -/
def insertCmp {α : Type} (cmp : α → α → Int) (x : α) : List α → List α
  | [] => [x]
  | y :: ys => if cmp x y ≤ 0 then x :: y :: ys else y :: insertCmp cmp x ys

/-- Stable sort by a numeric comparator, modelling `Array.prototype.sort`. -/
def sortByCmp {α : Type} (cmp : α → α → Int) : List α → List α
  | [] => []
  | x :: xs => insertCmp cmp x (sortByCmp cmp xs)

/-- Visibility filter used by `selectTarget`:
`!(u.invisibleTill && u.invisibleTill > now)`. -/
def isInvisible (now : Nat) (u : GUnit) : Bool :=
  match u.invisibleTill with
  | none => false
  | some t => now < t

/-- `canAttack` from `useGame.ts` (lines 1086-1103): melee attacks the
8-neighbourhood (Chebyshev ≤ 1, `dx <= 1 && dy <= 1`); archers (and the
default branch) use Manhattan distance against `range`. -/
def canAttack (u t : GUnit) : Bool :=
  let dx := (u.x - t.x).natAbs
  let dy := (u.y - t.y).natAbs
  match u.utype with
  | .melee => dx ≤ 1 && dy ≤ 1
  | .archer => manhattan (posOf u) (posOf t) ≤ u.range

/-- The first-strict-improvement selection loop used by `selectTarget`
(`for (...) if (better(d, bestD)) ...` starting from the head): returns the
first element whose key is optimal for `better`. -/
def pickBy {α : Type} (better : Nat → Nat → Bool) (f : α → Nat) : List α → Option α
  | [] => none
  | h :: t => some (t.foldl (fun best e => if better (f e) (f best) then e else best) h)

/-- `selectTarget` from `useGame.ts` (lines 1014-1084): filter dead and
invisible enemies; if some enemy is already in attack range, taunt-filter the
in-range pool and pick furthest (archer) or closest (melee); otherwise an
archer picks the furthest enemy outright, and any other archetype
taunt-filters all enemies and picks the closest by Manhattan distance. -/
def selectTarget (units : List GUnit) (now : Nat) (u : GUnit) : Option GUnit :=
  let enemies := units.filter fun e =>
    e.team ≠ u.team && e.hp > 0 && !(isInvisible now e)
  if enemies.isEmpty then none
  else
    let inRange := enemies.filter (canAttack u)
    if !inRange.isEmpty then
      let taunters := inRange.filter (·.canTaunt)
      let pool := if !taunters.isEmpty then taunters else inRange
      match u.utype with
      | .archer => pickBy (· > ·) (fun e => manhattan (posOf u) (posOf e)) pool
      | .melee => pickBy (· < ·) (fun e => manhattan (posOf u) (posOf e)) pool
    else
      match u.utype with
      | .archer => pickBy (· > ·) (fun e => manhattan (posOf u) (posOf e)) enemies
      | .melee =>
        let taunters := enemies.filter (·.canTaunt)
        let pool := if !taunters.isEmpty then taunters else enemies
        pickBy (· < ·) (fun e => manhattan (posOf u) (posOf e)) pool

/-- A movement event / candidate edge, the `MoveEvent` record of `types.ts`
(the redundant string cell names are omitted; `delta` and `forward` are the
optional resolver metadata). -/
structure MoveEv where
  unitId : Nat
  team : Team
  fromX : Int
  fromY : Int
  toX : Int
  toY : Int
  delta : Option Int
  forward : Option Int
deriving DecidableEq, Repr

/-- An attack history event, the `AttackEventHistory` record of `types.ts`
(string cell names omitted). -/
structure AttackEv where
  attackerId : Nat
  targetId : Nat
  fromX : Int
  fromY : Int
  toX : Int
  toY : Int
  damage : Int
deriving DecidableEq, Repr

/-- A unit snapshot in a history step, the `UnitSnapshot` record of
`types.ts`. -/
structure UnitSnapshot where
  uid : Nat
  team : Team
  x : Int
  y : Int
  hp : Int
deriving DecidableEq, Repr

/-- One history entry, the `HistoryStep` record of `types.ts`. -/
structure HistoryStep where
  tick : Nat
  moves : List MoveEv
  attacks : List AttackEv
  units : List UnitSnapshot
deriving DecidableEq, Repr

/-- The four BFS directions of `useGame.ts`: `[[1,0],[-1,0],[0,1],[0,-1]]`. -/
def bfsDirs : List Cell := [(1, 0), (-1, 0), (0, 1), (0, -1)]

/-- One expansion step of the BFS loops in `bfsTowardReducing` /
`bfsNextStep`: push the admissible unvisited neighbours of `cur` (first step
may not enter a start-occupied cell). -/
def bfsExpand (occ : List Cell) (start cur : Cell)
    (qp : List Cell × List (Cell × Option Cell)) : List Cell × List (Cell × Option Cell) :=
  bfsDirs.foldl
    (fun (qp : List Cell × List (Cell × Option Cell)) d =>
      let nk : Cell := (cur.1 + d.1, cur.2 + d.2)
      if !inBounds nk then qp
      else if cur = start && occ.contains nk then qp
      else if (getA nk qp.2).isSome then qp
      else (qp.1 ++ [nk], setA nk (some cur) qp.2))
    qp

/-- The BFS `while` loop shared by `bfsTowardReducing` and `bfsNextStep`,
with the goal predicate abstracted; returns the goal cell and the `prev`
parent map (fuel-indexed; the grid has 40 cells so any fuel ≥ 41 is exact). -/
def bfsLoop (goal : Cell → Bool) (occ : List Cell) (start : Cell) :
    Nat → List Cell → List (Cell × Option Cell) → Option (Cell × List (Cell × Option Cell))
  | 0, _, _ => none
  | _ + 1, [], _ => none
  | fuel + 1, cur :: rest, prev =>
    if cur ≠ start && goal cur then some (cur, prev)
    else
      let qp := bfsExpand occ start cur (rest, prev)
      bfsLoop goal occ start fuel qp.1 qp.2

/-- Path reconstruction in the BFS helpers: walk `prev` parents from the goal
until the parent is the start, returning the first step. -/
def walkBack (start : Cell) (prev : List (Cell × Option Cell)) : Nat → Cell → Cell
  | 0, c => c
  | fuel + 1, c =>
    match getA c prev with
    | some (some p) => if p = start then c else walkBack start prev fuel p
    | _ => c

/-- Fuel used for the BFS runs: ample for the 5×8 grid. -/
def bfsFuel : Nat := 100

/-- Shared driver of the two BFS helpers in `useGame.ts`: run the loop from
the unit's cell, reconstruct the first step, and drop a degenerate result. -/
def bfsFirstStep (goal : Cell → Bool) (occ : List Cell) (start : Cell) : Option Cell :=
  match bfsLoop goal occ start bfsFuel [start] [(start, none)] with
  | none => none
  | some (g, prev) =>
    let s := walkBack start prev bfsFuel g
    if s = start then none else some s

/-- `bfsTowardReducing` from `useGame.ts` (lines 597-643): closest cell that
strictly reduces Manhattan distance to the target, first step constrained to
start-free cells, returning the immediate first step. -/
def bfsTowardReducing (u tgt : GUnit) (occ : List Cell) : Option Cell :=
  let startDist := manhattan (posOf u) (posOf tgt)
  bfsFirstStep (fun c => manhattan c (posOf tgt) < startDist) occ (posOf u)

/-- The `canAttackFrom` closure of `bfsNextStep`: the unit's attack predicate
evaluated from an arbitrary cell. -/
def canAttackFrom (u tgt : GUnit) (c : Cell) : Bool :=
  match u.utype with
  | .melee => (c.1 - tgt.x).natAbs ≤ 1 && (c.2 - tgt.y).natAbs ≤ 1
  | .archer => manhattan c (posOf tgt) ≤ u.range

/-- `bfsNextStep` from `useGame.ts` (lines 1105-1161): shortest path to any
cell from which the unit can attack the target, returning the first step. -/
def bfsNextStep (u tgt : GUnit) (occ : List Cell) : Option Cell :=
  bfsFirstStep (canAttackFrom u tgt) occ (posOf u)

/-- The movement axis of a neighbour candidate in `moveToward`. -/
inductive Axis where
  | X
  | Y
deriving DecidableEq, Repr

/-- A neighbour candidate of `moveToward`: cell plus axis/direction tags. -/
structure Nb where
  x : Int
  y : Int
  axis : Axis
  dir : Int
deriving DecidableEq, Repr

/-- The cell of a neighbour candidate. -/
def Nb.cell (n : Nb) : Cell := (n.x, n.y)

/-- The neighbour list of `moveToward` / the resolver edge builder, in source
order: `x+1`, `x-1`, `y+1`, `y-1`. -/
def neighborsOf (u : GUnit) : List Nb :=
  [⟨u.x + 1, u.y, .X, 1⟩, ⟨u.x - 1, u.y, .X, -1⟩,
   ⟨u.x, u.y + 1, .Y, 1⟩, ⟨u.x, u.y - 1, .Y, -1⟩]

/-- The forward test of `moveToward`: a `y`-axis step toward the enemy
baseline (team A moves `y+1`, team B moves `y-1`). -/
def nbForward (team : Team) (n : Nb) : Bool :=
  n.axis = .Y && ((team = .A && n.dir = 1) || (team = .B && n.dir = -1))

/-- The neighbour comparator used twice inside `moveToward` (lines 1187-1198
and 1243-1254): resulting distance ascending, then the axis aligned with the
larger positional delta, then forward preference. -/
def nbCmp (u tgt : GUnit) (a b : Nb) : Int :=
  let dx := (tgt.x - u.x).natAbs
  let dy := (tgt.y - u.y).natAbs
  let da := manhattan a.cell (posOf tgt)
  let db := manhattan b.cell (posOf tgt)
  if da ≠ db then (da : Int) - (db : Int)
  else
    let aAxis : Int := match a.axis with
      | .X => if dx ≥ dy then 0 else 1
      | .Y => if dy > dx then 0 else 1
    let bAxis : Int := match b.axis with
      | .X => if dx ≥ dy then 0 else 1
      | .Y => if dy > dx then 0 else 1
    if aAxis ≠ bAxis then aAxis - bAxis
    else
      let aFwd : Int := if nbForward u.team a then 0 else 1
      let bFwd : Int := if nbForward u.team b then 0 else 1
      if aFwd ≠ bFwd then aFwd - bFwd else 0

/-- `moveToward` from `useGame.ts` (lines 1164-1298), as a pure function
returning the proposed `MoveEvent` (if any); the caller records the
`lastPosition` update exactly when a move is proposed, as the source does.
The target distance delta recorded on the event is
`startDist - newDist`. -/
def moveToward (u tgt : GUnit) (occ : List Cell) (lastPos : Option Cell) : Option MoveEv :=
  let startDist := manhattan (posOf u) (posOf tgt)
  let mk : Cell → Bool → MoveEv := fun c fwd =>
    { unitId := u.uid, team := u.team, fromX := u.x, fromY := u.y,
      toX := c.1, toY := c.2,
      delta := some ((startDist : Int) - (manhattan c (posOf tgt) : Int)),
      forward := some (if fwd then 1 else 0) }
  let valid := (neighborsOf u).filter (fun n => inBounds n.cell)
  let isFree := fun (n : Nb) => !occ.contains n.cell
  if !valid.isEmpty then
    let nonBacktrack := valid.filter (fun n => some n.cell ≠ lastPos)
    let pool := if !nonBacktrack.isEmpty then nonBacktrack else valid
    let decFree := pool.filter (fun n => isFree n && manhattan n.cell (posOf tgt) < startDist)
    if !decFree.isEmpty then
      match sortByCmp (nbCmp u tgt) decFree with
      | [] => none
      | best :: _ => some (mk best.cell (nbForward u.team best))
    else
      match (bfsTowardReducing u tgt occ).orElse (fun _ => bfsNextStep u tgt occ) with
      | some nxt =>
        some (mk nxt
          (decide (nxt.2 - u.y ≠ 0) &&
            ((u.team = .A && nxt.2 - u.y = 1) || (u.team = .B && nxt.2 - u.y = -1))))
      | none =>
        match sortByCmp (nbCmp u tgt) pool with
        | [] => none
        | best :: _ => some (mk best.cell (nbForward u.team best))
  else
    match bfsNextStep u tgt occ with
    | some nxt =>
      some (mk nxt
        (decide (nxt.2 - u.y ≠ 0) &&
          ((u.team = .A && nxt.2 - u.y = 1) || (u.team = .B && nxt.2 - u.y = -1))))
    | none => none

/-- The `AttackEffect` record of `types.ts`. -/
structure AttackEffect where
  eid : Nat
  fromX : Int
  fromY : Int
  toX : Int
  toY : Int
  timestamp : Nat
deriving DecidableEq, Repr

/-- The `ParticleEffect` record of `types.ts`. -/
structure ParticleEffect where
  eid : Nat
  x : Int
  y : Int
  timestamp : Nat
deriving DecidableEq, Repr

/-- The `TileFlash` record of `types.ts`. -/
structure TileFlash where
  x : Int
  y : Int
  timestamp : Nat
deriving DecidableEq, Repr

/-- `units.find(u => u.id === uid)`. -/
def findUnit (units : List GUnit) (uid : Nat) : Option GUnit :=
  units.find? (fun u => u.uid = uid)

/-- The mutable state touched by `attack`: the unit roster, the per-tick
attack log, the three visual-effect lists and the `id()` counter. -/
structure CombatState where
  units : List GUnit
  pendingAttacks : List AttackEv
  attackEffects : List AttackEffect
  particleEffects : List ParticleEffect
  tileFlashes : List TileFlash
  idCounter : Nat
deriving DecidableEq, Repr

/-- `attack` from `useGame.ts` (lines 1300-1352): set the attacker's
`lastAttackAt`, subtract the attacker's `atk` from the target's hp, lock the
attacker onto the target if it had no lock, and append the history event and
the three visual effects.  The source receives object references; here the
two units are addressed by id (the `setTimeout` effect removals are later
presentation-side events and are not part of this step). -/
def attack (now : Nat) (attackerId targetId : Nat) (cs : CombatState) : CombatState :=
  match findUnit cs.units attackerId, findUnit cs.units targetId with
  | some a, some t =>
    let units' := cs.units.map fun u =>
      let u1 := if u.uid = attackerId then
          { u with lastAttackAt := now,
                   lockedTargetId := match u.lockedTargetId with
                     | none => some targetId
                     | some z => some z }
        else u
      if u1.uid = targetId then { u1 with hp := u1.hp - a.atk } else u1
    { cs with
      units := units',
      pendingAttacks := cs.pendingAttacks ++
        [{ attackerId := attackerId, targetId := targetId,
           fromX := a.x, fromY := a.y, toX := t.x, toY := t.y, damage := a.atk }],
      attackEffects := cs.attackEffects ++
        [{ eid := cs.idCounter + 1, fromX := a.x, fromY := a.y,
           toX := t.x, toY := t.y, timestamp := now }],
      particleEffects := cs.particleEffects ++
        [{ eid := cs.idCounter + 2, x := t.x, y := t.y, timestamp := now }],
      tileFlashes := cs.tileFlashes ++ [{ x := t.x, y := t.y, timestamp := now }],
      idCounter := cs.idCounter + 2 }
  | _, _ => cs

/-- The state threaded through the per-unit action loop of `tick`
(lines 788-825): combat state plus the per-tick move intents and the
`lastPosition` fairness map. -/
structure ActCtx where
  cs : CombatState
  pendingMoves : List MoveEv
  lastPosition : List (Nat × Cell)
deriving DecidableEq, Repr

/-- One iteration of the action loop of `tick` (lines 788-825) for the
snapshot unit with id `suid`: resolve the locked target (clearing a dead
lock), otherwise select a target; attack when in range and off cooldown;
otherwise move unless recovering from an attack. -/
def actStep (now : Nat) (occ : List Cell) (ctx : ActCtx) (suid : Nat) : ActCtx :=
  match findUnit ctx.cs.units suid with
  | none => ctx
  | some u =>
    if u.hp ≤ 0 then ctx
    else
      let lockRes : Option GUnit :=
        match u.lockedTargetId with
        | some lid => ctx.cs.units.find? (fun v => v.uid = lid && v.hp > 0)
        | none => none
      let clearLock := u.lockedTargetId.isSome && lockRes.isNone
      let units1 := if clearLock then
          ctx.cs.units.map (fun v => if v.uid = suid then { v with lockedTargetId := none } else v)
        else ctx.cs.units
      let u1 := if clearLock then { u with lockedTargetId := none } else u
      let ctx1 : ActCtx := { ctx with cs := { ctx.cs with units := units1 } }
      let tgtOpt := match lockRes with
        | some t => some t
        | none => selectTarget units1 now u1
      match tgtOpt with
      | none => ctx1
      | some tgt =>
        if canAttack u1 tgt then
          if u1.lastAttackAt = 0 || (now : Int) - (u1.lastAttackAt : Int) ≥ (u1.attackCooldownMs : Int) then
            { ctx1 with cs := attack now suid tgt.uid ctx1.cs }
          else ctx1
        else
          let inCooldown := u1.lastAttackAt ≠ 0 &&
            (now : Int) - (u1.lastAttackAt : Int) < (u1.attackCooldownMs : Int)
          if inCooldown then ctx1
          else
            match moveToward u1 tgt occ (getA suid ctx1.lastPosition) with
            | some mv =>
              { ctx1 with
                pendingMoves := ctx1.pendingMoves ++ [mv],
                lastPosition := setA suid (posOf u1) ctx1.lastPosition }
            | none => ctx1

/-- `startOcc` of the resolver (line 828-829): cell → unit id over the whole
start-of-tick snapshot (no hp filter in the source). -/
def buildStartOcc (snapshot : List GUnit) : List (Cell × Nat) :=
  snapshot.foldl (fun m u => setA (posOf u) u.uid m) []

/-- `Array.from(new Set(...))`: de-duplicate preserving first occurrence. -/
def dedupFirst (l : List Nat) : List Nat :=
  l.foldl (fun acc x => if x ∈ acc then acc else acc ++ [x]) []

/-- The per-mover edge comparator of the resolver (lines 871-882): the
denied-streak clause compares the same unit's streak with itself and is
inert; then empty-at-start destinations first, then larger `delta`, then
`forward`. -/
def edgeCmp (socc : List (Cell × Nat)) (a b : MoveEv) : Int :=
  let ea : Int := if (getA ((a.toX, a.toY) : Cell) socc).isSome then 1 else 0
  let eb : Int := if (getA ((b.toX, b.toY) : Cell) socc).isSome then 1 else 0
  if ea ≠ eb then ea - eb
  else
    let da := a.delta.getD 0
    let db := b.delta.getD 0
    if da ≠ db then db - da
    else
      let fa := a.forward.getD 0
      let fb := b.forward.getD 0
      if fa ≠ fb then fb - fa else 0

/-- Candidate-edge construction for one mover (lines 836-884): re-resolve the
target (lock first, else fresh selection; no edges without a target), build
the in-bounds 4-neighbour edges with `delta`/`forward` metadata, and sort
them with `edgeCmp`. -/
def buildEdges (units : List GUnit) (now : Nat) (socc : List (Cell × Nat)) (uId : Nat) :
    Option (List MoveEv) :=
  match findUnit units uId with
  | none => none
  | some u =>
    let lockRes : Option GUnit :=
      match u.lockedTargetId with
      | some lid => units.find? (fun v => v.uid = lid && v.hp > 0)
      | none => none
    let tgtOpt := match lockRes with
      | some t => some t
      | none => selectTarget units now u
    match tgtOpt with
    | none => none
    | some tgt =>
      let startDist := manhattan (posOf u) (posOf tgt)
      let edges := ((neighborsOf u).filter (fun n => inBounds n.cell)).map fun n =>
        ({ unitId := u.uid, team := u.team, fromX := u.x, fromY := u.y,
           toX := n.x, toY := n.y,
           delta := some ((startDist : Int) - (manhattan n.cell (posOf tgt) : Int)),
           forward := some (if nbForward u.team n then 1 else 0) } : MoveEv)
      some (sortByCmp (edgeCmp socc) edges)

/-- `Math.max(-Infinity, ...edges.map(e => e.delta ?? -Infinity))`, with
`none` playing the role of `-Infinity`. -/
def maxDelta (es : List MoveEv) : Option Int :=
  es.foldl
    (fun acc e => match e.delta, acc with
      | none, a => a
      | some d, none => some d
      | some d, some a => some (max a d))
    none

/-- `maxDb - maxDa` on the option-valued best deltas, with `none` as the
`-Infinity` of the source (the sign is all the sort consumes). -/
def optDescCmp : Option Int → Option Int → Int
  | none, none => 0
  | none, some _ => 1
  | some _, none => -1
  | some x, some y => y - x

/-- The mover-ordering comparator of the resolver (lines 887-897): higher
denied-streak first, then larger best delta, then unit id ascending. -/
def moverCmp (streaks : List (Nat × Nat)) (em : List (Nat × List MoveEv)) (ua ub : Nat) : Int :=
  if (((getA ua streaks).getD 0 : Nat) : Int) ≠ (((getA ub streaks).getD 0 : Nat) : Int) then
    (((getA ub streaks).getD 0 : Nat) : Int) - (((getA ua streaks).getD 0 : Nat) : Int)
  else if maxDelta ((getA ua em).getD []) ≠ maxDelta ((getA ub em).getD []) then
    optDescCmp (maxDelta ((getA ua em).getD [])) (maxDelta ((getA ub em).getD []))
  else if ua < ub then -1 else if ub < ua then 1 else 0

/-- The resolver's matching state: the two assignment maps `destToUnit` /
`unitToDest` (battle-wide within one tick) and the per-search visited sets
`seenUnits` / `seenDests` (shared by mutation through the recursion, exactly
as the source's `Set` objects are). -/
structure RState where
  destToUnit : List (Cell × Nat)
  unitToDest : List (Nat × Cell)
  seenU : List Nat
  seenD : List Cell
deriving DecidableEq, Repr

/-- The paired map update `destToUnit.set(destKey, uId); unitToDest.set(uId,
destKey)` performed on every successful branch of `dfs`. -/
def assignR (st : RState) (uId : Nat) (d : Cell) : RState :=
  { st with destToUnit := setA d uId st.destToUnit, unitToDest := setA uId d st.unitToDest }

/-- The augmenting-path search `dfs` of the resolver (lines 902-938),
iterating over the current unit's candidate edges.  A recursive `dfs(other)`
call is inlined as: consult `seenUnits`, add the unit, and recurse into its
edge list (`edgesByUnit.get(uId) || []`).  The source's recursion terminates
because every `dfs` entry adds a fresh unit to `seenUnits`; here `fuel`
decreases on every step (both along an edge list and into a recursive
search), so any fuel beyond the total step bound — at most five steps per
visitable unit — reproduces the source exactly, and the invariant theorems
below hold for every fuel. -/
def dfsE (em : List (Nat × List MoveEv)) (socc : List (Cell × Nat)) :
    Nat → Nat → Cell → List MoveEv → RState → Bool × RState
  | 0, _, _, _, st => (false, st)
  | _ + 1, _, _, [], st => (false, st)
  | fuel + 1, uId, root, e :: rest, st =>
    let d : Cell := (e.toX, e.toY)
    if d ∈ st.seenD then dfsE em socc fuel uId root rest st
    else
      let st1 : RState := { st with seenD := d :: st.seenD }
      match getA d socc with
      | none =>
        match getA d st1.destToUnit with
        | none => (true, assignR st1 uId d)
        | some m =>
          if m ∈ st1.seenU then dfsE em socc fuel uId root rest st1
          else
            match dfsE em socc fuel m root ((getA m em).getD []) { st1 with seenU := m :: st1.seenU } with
            | (true, st2) => (true, assignR st2 uId d)
            | (false, st2) => dfsE em socc fuel uId root rest st2
      | some occId =>
        if occId = uId then dfsE em socc fuel uId root rest st1
        else if getA occId st1.unitToDest = some root then dfsE em socc fuel uId root rest st1
        else
          if occId ∈ st1.seenU then dfsE em socc fuel uId root rest st1
          else
            match dfsE em socc fuel occId root ((getA occId em).getD []) { st1 with seenU := occId :: st1.seenU } with
            | (true, st2) => (true, assignR st2 uId d)
            | (false, st2) => dfsE em socc fuel uId root rest st2

/-- The output of the resolver phase of `tick` (lines 827-974). -/
structure ResolveOut where
  moverIds : List Nat
  edgesByUnit : List (Nat × List MoveEv)
  moversOrdered : List Nat
  matching : RState
  allowed : List MoveEv
deriving DecidableEq, Repr

/-- The `edgesByUnit` construction loop of the resolver (lines 835-884). -/
def buildEdgesMap (units : List GUnit) (now : Nat) (socc : List (Cell × Nat))
    (moverIds : List Nat) : List (Nat × List MoveEv) :=
  moverIds.foldl
    (fun m uid =>
      match buildEdges units now socc uid with
      | none => m
      | some es => setA uid es m)
    []

/-- The matching loop of the resolver (lines 899-946): one `dfs` run per
ordered mover with fresh visited sets over the shared assignment maps. -/
def runMatching (em : List (Nat × List MoveEv)) (socc : List (Cell × Nat)) (fuel : Nat)
    (pairs : List (Nat × Cell)) : RState :=
  pairs.foldl
    (fun st (p : Nat × Cell) =>
      (dfsE em socc fuel p.1 p.2 ((getA p.1 em).getD []) { st with seenU := [p.1], seenD := [] }).2)
    (⟨[], [], [], []⟩ : RState)

/-- Building the allowed move list from the final `unitToDest` entries
(lines 948-964). -/
def allowedOf (units : List GUnit) (u2d : List (Nat × Cell)) : List MoveEv :=
  u2d.filterMap
    (fun (p : Nat × Cell) =>
      (findUnit units p.1).map (fun u =>
        ({ unitId := u.uid, team := u.team, fromX := u.x, fromY := u.y,
           toX := p.2.1, toY := p.2.2, delta := none, forward := none } : MoveEv)))

/-- The resolver phase of `tick` (lines 827-974): collect the movers from the
pending intents, rebuild their candidate edges, order the movers by the
fairness comparator, run the augmenting search per mover (fresh visited sets,
shared assignment maps), and convert the final `unitToDest` map into the
allowed move list. -/
def resolvePhase (units snapshot : List GUnit) (streaks : List (Nat × Nat)) (now : Nat)
    (pendingMoves : List MoveEv) : ResolveOut :=
  let socc := buildStartOcc snapshot
  let moverIds := dedupFirst (pendingMoves.map (·.unitId))
  let em := buildEdgesMap units now socc moverIds
  let movers := sortByCmp (moverCmp streaks em) moverIds
  let fuel := 8 * (units.length + 1)
  let pairs := movers.filterMap (fun uid => (findUnit units uid).map (fun u => (uid, posOf u)))
  let finalSt := runMatching em socc fuel pairs
  ⟨moverIds, em, movers, finalSt, allowedOf units finalSt.unitToDest⟩

/-- Application of the allowed moves (lines 966-973 together with the
completion of `animateMove`): each granted unit's logical position becomes
its destination. -/
def applyMoves (allowed : List MoveEv) (units : List GUnit) : List GUnit :=
  allowed.foldl
    (fun us mv => us.map (fun u => if u.uid = mv.unitId then { u with x := mv.toX, y := mv.toY } else u))
    units

/-- The fairness bookkeeping of the resolver (lines 977-982): granted movers
reset their denied streak, denied movers increment it. -/
def updateStreaks (moverIds allowedIds : List Nat) (streaks : List (Nat × Nat)) :
    List (Nat × Nat) :=
  moverIds.foldl
    (fun m uid =>
      if uid ∈ allowedIds then setA uid 0 m
      else setA uid ((getA uid m).getD 0 + 1) m)
    streaks

/-- Phases, as in `types.ts` (`Phase = 'placement' | 'battle'`). -/
inductive Phase where
  | placement
  | battle
deriving DecidableEq, Repr

/-- The per-match mutable state of `useGame` relevant to the simulation
core. -/
structure GState where
  units : List GUnit
  phase : Phase
  running : Bool
  round : Nat
  maxRounds : Nat
  teamAWins : Nat
  teamBWins : Nat
  finalWinner : Option Team
  history : List HistoryStep
  tickCount : Nat
  lastPosition : List (Nat × Cell)
  deniedStreak : List (Nat × Nat)
  bench : List (Role × Bool)
  attackEffects : List AttackEffect
  particleEffects : List ParticleEffect
  tileFlashes : List TileFlash
  idCounter : Nat
deriving DecidableEq, Repr

/-- `endRound` from `useGame.ts` (lines 1394-1415): stop the battle, credit
the round winner, and either declare the final winner (when `round >=
maxRounds`; the `finalWinner` field records the "BO3 Complete" branch) or
advance to the next round. -/
def endRound (winner : Team) (s : GState) : GState :=
  let s1 := { s with running := false }
  let s2 := match winner with
    | .A => { s1 with teamAWins := s1.teamAWins + 1 }
    | .B => { s1 with teamBWins := s1.teamBWins + 1 }
  if s2.round ≥ s2.maxRounds then
    { s2 with finalWinner := some (if s2.teamAWins > s2.teamBWins then .A else .B) }
  else
    { s2 with round := s2.round + 1 }

/-- `ROLE_STATS` from `types.ts`. -/
structure RoleStats where
  hp : Int
  atk : Int
  range : Nat
  utype : UnitType
  canTaunt : Bool
deriving DecidableEq, Repr

/-- `ROLE_STATS` from `types.ts`: Soldier 18/3/1 melee, Archer 12/2/3
archer. -/
def ROLE_STATS : Role → RoleStats
  | .Soldier => ⟨18, 3, 1, .melee, false⟩
  | .Archer => ⟨12, 2, 3, .archer, false⟩

/-- `createUnit` from `useGame.ts` (lines 645-663); the fresh id comes from
the state's id counter.  The `facing` field only matters to rendering and is
omitted. -/
def createUnit (uid : Nat) (role : Role) (team : Team) (x y : Int) : GUnit :=
  let st := ROLE_STATS role
  { uid := uid, team := team, utype := st.utype, x := x, y := y,
    hp := st.hp, maxHp := st.hp, atk := st.atk, range := st.range,
    canTaunt := st.canTaunt, invisibleTill := none, lockedTargetId := none,
    lastAttackAt := 0, attackCooldownMs := 1000 }

/-- `bench.find(b => b.role === role && !b.placed)` followed by
`benchItem.placed = true`: mark the first free bench slot of the role. -/
def benchTake (role : Role) : List (Role × Bool) → Option (List (Role × Bool))
  | [] => none
  | (r, p) :: t =>
    if r = role && !p then some ((r, true) :: t)
    else (benchTake role t).map ((r, p) :: ·)

/-- `placeUnit` from `useGame.ts` (lines 666-683): reject rows `y > 3`,
non-placement phase, occupied cells and an exhausted bench; otherwise create
a team-A unit at `(x, y)` and mark the bench slot. -/
def placeUnit (role : Role) (x y : Int) (s : GState) : Bool × GState :=
  if y > 3 then (false, s)
  else if s.phase ≠ .placement then (false, s)
  else if s.units.any (fun u => u.x = x && u.y = y) then (false, s)
  else
    match benchTake role s.bench with
    | none => (false, s)
    | some bench' =>
      (true,
        { s with
          units := s.units ++ [createUnit (s.idCounter + 1) role .A x y],
          bench := bench', idCounter := s.idCounter + 1 })

/-- The action phase of `tick` (lines 774-825): snapshot the roster and run
the per-unit action loop against the start-of-tick occupancy. -/
def tickActionPhase (now : Nat) (s : GState) : ActCtx :=
  let snapshot := s.units
  let occupied := (snapshot.filter (fun u => u.hp > 0)).map posOf
  let cs0 : CombatState :=
    ⟨s.units, [], s.attackEffects, s.particleEffects, s.tileFlashes, s.idCounter⟩
  (snapshot.map (·.uid)).foldl (actStep now occupied) ⟨cs0, [], s.lastPosition⟩

/-- The resolver phase of `tick` applied to the state left by the action
phase. -/
def tickResolve (now : Nat) (s : GState) : ResolveOut :=
  resolvePhase (tickActionPhase now s).cs.units s.units s.deniedStreak now
    (tickActionPhase now s).pendingMoves

/-- `tick` from `useGame.ts` (lines 771-1007): snapshot the roster, run the
per-unit action loop against the start-of-tick occupancy, resolve the
movement intents by matching, update fairness streaks, remove dead units,
append the history entry (positions as recorded by the source: before the
granted moves take effect), check round end, and finally apply the granted
moves (the animation that completes before the next tick). -/
def tick (now : Nat) (s : GState) : GState :=
  if !s.running then s
  else
    let snapshot := s.units
    let ctx := tickActionPhase now s
    let res := resolvePhase ctx.cs.units snapshot s.deniedStreak now ctx.pendingMoves
    let allowed := res.allowed
    let allowedIds := allowed.map (·.unitId)
    let streaks1 := updateStreaks res.moverIds allowedIds s.deniedStreak
    let unitsAfterDead := ctx.cs.units.filter (fun u => u.hp > 0)
    let snaps := unitsAfterDead.map
      (fun u => ({ uid := u.uid, team := u.team, x := u.x, y := u.y, hp := u.hp } : UnitSnapshot))
    let entry : HistoryStep := ⟨s.tickCount, allowed, ctx.cs.pendingAttacks, snaps⟩
    let teamALeft := unitsAfterDead.filter (fun u => u.team = .A)
    let teamBLeft := unitsAfterDead.filter (fun u => u.team = .B)
    let finalUnits := applyMoves allowed unitsAfterDead
    let s1 := { s with
      units := finalUnits,
      lastPosition := ctx.lastPosition,
      deniedStreak := streaks1,
      history := s.history ++ [entry],
      tickCount := s.tickCount + 1,
      attackEffects := ctx.cs.attackEffects,
      particleEffects := ctx.cs.particleEffects,
      tileFlashes := ctx.cs.tileFlashes,
      idCounter := ctx.cs.idCounter }
    if teamALeft.isEmpty || teamBLeft.isEmpty then
      endRound (if !teamALeft.isEmpty then .A else .B) s1
    else s1

/-- The 4-neighbour cells of a cell. -/
def cellNeighbors (c : Cell) : List Cell :=
  [(c.1 + 1, c.2), (c.1 - 1, c.2), (c.1, c.2 + 1), (c.1, c.2 - 1)]

/-- Definition following the spec's words (§4.4, "Two-Step Progress
Feasibility"), stated for comparison with the code's `selectTarget`: among
the unit's free in-bounds 4-neighbours that strictly reduce Manhattan
distance to the target, some neighbour either already satisfies the attack
predicate against the target, or admits a second free in-bounds step (not
back to the unit's own cell) that further reduces distance. -/
def twoStepFeasibleSpec (u tgt : GUnit) (occ : List Cell) : Bool :=
  let startDist := manhattan (posOf u) (posOf tgt)
  (cellNeighbors (posOf u)).any fun n =>
    inBounds n && !occ.contains n && manhattan n (posOf tgt) < startDist &&
      (canAttackFrom u tgt n ||
        (cellNeighbors n).any fun c2 =>
          inBounds c2 && !occ.contains c2 && c2 != posOf u &&
            manhattan c2 (posOf tgt) < manhattan n (posOf tgt))

/-- "Strictly better best-delta" on the option-valued `maxDelta`, reading
`none` as minus infinity. -/
def deltaBetter : Option Int → Option Int → Prop
  | none, _ => False
  | some _, none => True
  | some x, some y => y < x

/-- The mover priority stated by the fairness claim: strictly higher denied
streak first, then strictly better best delta, then unit id. -/
def moverPri (streaks : List (Nat × Nat)) (em : List (Nat × List MoveEv)) (ua ub : Nat) : Prop :=
  (getA ua streaks).getD 0 > (getA ub streaks).getD 0 ∨
    ((getA ua streaks).getD 0 = (getA ub streaks).getD 0 ∧
      (deltaBetter (maxDelta ((getA ua em).getD [])) (maxDelta ((getA ub em).getD [])) ∨
        (maxDelta ((getA ua em).getD []) = maxDelta ((getA ub em).getD []) ∧ ua ≤ ub)))

/-- No two moves of the list exchange cells (the no-swap property). -/
def NoSwapMoves (moves : List MoveEv) : Prop :=
  ∀ m1 ∈ moves, ∀ m2 ∈ moves,
    m1.unitId ≠ m2.unitId →
    ¬(((m1.toX, m1.toY) : Cell) = (m2.fromX, m2.fromY) ∧
      ((m2.toX, m2.toY) : Cell) = (m1.fromX, m1.fromY))

/-- The assignment map contains no swap pair relative to the start
occupancy: no two distinct units are assigned each other's start cells. -/
def SwapFree (socc : List (Cell × Nat)) (m : List (Nat × Cell)) : Prop :=
  ∀ a b ca cb, a ≠ b → getA ca socc = some a → getA cb socc = some b →
    getA a m = some cb → getA b m = some ca → False

/-- The identity-and-position projection of a unit: the action phase of a
tick never changes it (it only touches hp, locks, cooldown stamps and the
event lists). -/
def unitKey (u : GUnit) : Nat × Int × Int := (u.uid, u.x, u.y)

/-- A battle-phase state fixture holding the given roster (fresh fairness
maps, empty history, best-of-3 at round 1). -/
def battleStateOf (us : List GUnit) : GState :=
  { units := us, phase := .battle, running := true, round := 1, maxRounds := 3,
    teamAWins := 0, teamBWins := 0, finalWinner := none, history := [], tickCount := 0,
    lastPosition := [], deniedStreak := [], bench := [], attackEffects := [],
    particleEffects := [], tileFlashes := [], idCounter := 0 }

/-- A Soldier fixture that already attacked at time 500: at `now = 1000` it
is still inside its 1000ms cooldown, so it holds its cell without moving. -/
def cooledSoldier (uid : Nat) (team : Team) (x y : Int) : GUnit :=
  { createUnit uid .Soldier team x y with lastAttackAt := 500 }

/-- C1 fixture: movers 1 at (1,1), 2 at (3,1) and 3 at (2,1), hemmed in by
six cooldown-bound blockers, with a single far enemy at (0,7) that every
team-A unit chases. -/
def c1State : GState :=
  battleStateOf
    [createUnit 1 .Soldier .A 1 1, createUnit 2 .Soldier .A 3 1,
     createUnit 3 .Soldier .A 2 1,
     cooledSoldier 4 .A 0 1, cooledSoldier 5 .A 1 0, cooledSoldier 6 .A 1 2,
     cooledSoldier 7 .A 4 1, cooledSoldier 8 .A 3 0, cooledSoldier 9 .A 3 2,
     cooledSoldier 10 .B 0 7]

/-- C3 fixtures: two opposing melee units a knight-move apart, each able to
step into attack range of the other within one tick. -/
def c3unitA : GUnit := createUnit 1 .Soldier .A 1 3

/-- See `c3unitA`. -/
def c3unitB : GUnit := createUnit 2 .Soldier .B 2 5

/-- The C3 battle state holding the two duellists. -/
def c3State : GState := battleStateOf [c3unitA, c3unitB]

/-- C5 fixture: two approaching soldiers, both moving on the first tick. -/
def c5State : GState :=
  battleStateOf [createUnit 1 .Soldier .A 2 2, createUnit 2 .Soldier .B 2 6]

/-- A fresh placement-phase state with the three-Soldier bench of the
source. -/
def placementInitial : GState :=
  { units := [], phase := .placement, running := false, round := 1, maxRounds := 3,
    teamAWins := 0, teamBWins := 0, finalWinner := none, history := [], tickCount := 0,
    lastPosition := [], deniedStreak := [],
    bench := [(.Soldier, false), (.Soldier, false), (.Soldier, false)],
    attackEffects := [], particleEffects := [], tileFlashes := [], idCounter := 0 }

/-- A fresh best-of-3 match context (round 1 of 3, no wins yet). -/
def bo3Initial : GState := battleStateOf []

/-- C7 fixture: a melee Soldier at (0,0). -/
def c7melee : GUnit := createUnit 1 .Soldier .A 0 0

/-- C7 fixture: a target at (1,1). -/
def c7target : GUnit := createUnit 2 .Soldier .B 1 1

/-- C7 fixture: an archer at (0,0) whose range is 1. -/
def c7archer : GUnit := { createUnit 3 .Archer .A 0 0 with range := 1 }

/-- C8 fixture: melee unit 1 at (0,0) is walled in toward the near enemy 3
at (0,2) by ally 2 at (0,1); enemy 4 at (3,0) is reachable in two free
steps. -/
def c8Units : List GUnit :=
  [createUnit 1 .Soldier .A 0 0, createUnit 2 .Soldier .A 0 1,
   createUnit 3 .Soldier .B 0 2, createUnit 4 .Soldier .B 3 0]

/-- The acting unit of the C8 fixture. -/
def c8Unit : GUnit := createUnit 1 .Soldier .A 0 0

/-- The start-of-tick occupancy of the C8 fixture. -/
def c8Occ : List Cell := c8Units.map posOf

/-- C10 fixture: a combat state with a team-A Soldier at (0,0) and a team-B
Soldier at (1,1). -/
def c10cs : CombatState :=
  ⟨[createUnit 1 .Soldier .A 0 0, createUnit 2 .Soldier .B 1 1], [], [], [], [], 0⟩

/-- C1: the no-collision invariant fails on the code.  In `c1State` the
resolver's occupied-destination branch of `dfs` grants the start-occupied
cell (2,1) to unit 1 and then again to unit 2 — it re-resolves the occupant
without consulting `destToUnit` for the existing claimant — so after the
tick two live units stand on (2,1). -/
theorem c1_two_live_units_share_a_cell :
    (((tick 1000 c1State).units.filter fun u => u.x == 2 && u.y == 1).map (·.uid)) = [1, 2]
    ∧ ((tick 1000 c1State).units.all fun u => u.hp > 0) = true := by
  exact ⟨by decide, by decide⟩

/-- C3 counterexample: in the mutual lethal-closing scenario `c3State`, each
unit has an edge landing in attack range of the other, yet after the
resolver runs both units keep a non-empty (four-edge) candidate list and
both are granted moves — no pre-pass forces either unit's edge list empty,
so it is false that exactly one of the two has a non-empty move list. -/
theorem c3_no_duel_arbitration :
    ((tickResolve 1000 c3State).edgesByUnit.map fun p => (p.1, p.2.length)) = [(1, 4), (2, 4)]
    ∧ ((tickResolve 1000 c3State).allowed.map fun m => (m.unitId, m.toX, m.toY))
        = [(1, 1, 4), (2, 2, 4)]
    ∧ canAttackFrom c3unitA c3unitB (1, 4) = true
    ∧ canAttackFrom c3unitB c3unitA (2, 4) = true := by
  exact ⟨by decide, by decide, by decide, by decide⟩

/-- C3 amended: the resolver applies no duel arbitration: in the mutual
lethal-closing scenario both opposing movers keep their (non-empty) edge
lists and both are granted their closing steps in the same tick, ending it
in mutual attack range. -/
theorem c3_both_movers_step_into_mutual_range :
    ((tickResolve 1000 c3State).edgesByUnit.all fun p => !p.2.isEmpty) = true
    ∧ ((tick 1000 c3State).units.map fun u => (u.uid, u.x, u.y)) = [(1, 1, 4), (2, 2, 4)]
    ∧ chebyshev (1, 4) (2, 4) ≤ 1 := by
  exact ⟨by decide, by decide, by decide⟩

/-- C4 counterexample: team A wins rounds 1 and 2 of a best-of-3, yet the
match is not concluded — `endRound` declares no final winner and advances to
round 3.  (Between the two round ends, `startBattle` and `tick` never touch
`round`, `maxRounds`, the win counters or `finalWinner`, so composing
`endRound` directly is faithful.) -/
theorem c4_no_conclusion_after_two_wins :
    (endRound .A (endRound .A bo3Initial)).teamAWins = 2
    ∧ (endRound .A (endRound .A bo3Initial)).teamBWins = 0
    ∧ (endRound .A (endRound .A bo3Initial)).finalWinner = none
    ∧ (endRound .A (endRound .A bo3Initial)).round = 3 := by
  exact ⟨by decide, by decide, by decide, by decide⟩

/-- C4 amended: `endRound` concludes the match only when the ending round is
already the configured last round; for any earlier round it declares no
final winner and advances the round counter, so a 2-0 lead after round 2 of
a best-of-3 still leads to round 3. -/
theorem c4_endRound_concludes_only_at_last_round (s : GState) (w : Team)
    (h : s.round < s.maxRounds) :
    (endRound w s).finalWinner = s.finalWinner ∧ (endRound w s).round = s.round + 1 := by
  have hn : ¬ s.round ≥ s.maxRounds := not_le.mpr h
  cases w <;> simp [endRound, hn]

/-- Witness for `c4_endRound_concludes_only_at_last_round` at `bo3Initial`
(round 1 of 3). -/
theorem c4_endRound_concludes_only_at_last_round_witness :
    (endRound Team.A bo3Initial).finalWinner = bo3Initial.finalWinner
    ∧ (endRound Team.A bo3Initial).round = bo3Initial.round + 1 :=
  c4_endRound_concludes_only_at_last_round bo3Initial Team.A (by decide)

/-- C5: the history entry of a tick does not hold end-of-tick positions.  In
`c5State` tick 0 resolves moves (2,2)→(2,3) and (2,6)→(2,5); the entry's
unit snapshots still carry the pre-move cells (2,2) and (2,6) while the
roster ends the tick at (2,3) and (2,5) — `HistoryStep.units` is documented
in `types.ts` as "positions and hp after the tick is processed", so replaying
from `TickRecord[i].units` does not reproduce the post-tick board. -/
theorem c5_history_units_are_premove :
    ((tick 1000 c5State).history.map fun h => h.units.map fun v => (v.uid, v.x, v.y))
      = [[(1, 2, 2), (2, 2, 6)]]
    ∧ ((tick 1000 c5State).history.map fun h =>
        h.moves.map fun m => (m.unitId, m.fromX, m.fromY, m.toX, m.toY))
      = [[(1, 2, 2, 2, 3), (2, 2, 6, 2, 5)]]
    ∧ ((tick 1000 c5State).units.map fun u => (u.uid, u.x, u.y)) = [(1, 2, 3), (2, 2, 5)] := by
  exact ⟨by decide, by decide, by decide⟩

/-- C6: the in-bounds invariant fails through `placeUnit`, which checks only
`y > 3` (and occupancy/bench/phase) but never the x bound: placing a Soldier
at (7,0) on the fresh placement state succeeds and stores a unit outside the
5-wide board. -/
theorem c6_placeUnit_accepts_out_of_bounds :
    (placeUnit .Soldier 7 0 placementInitial).1 = true
    ∧ (((placeUnit .Soldier 7 0 placementInitial).2.units.map fun u => (u.x, u.y)) = [(7, 0)])
    ∧ inBounds (7, 0) = false := by
  exact ⟨by decide, by decide, by decide⟩

/-- C7: `canAttack` implements the archetype range predicates: for every
melee unit it holds exactly when the Chebyshev distance is at most 1, for
every archer exactly when the Manhattan distance is at most its range; in
particular the melee pair (0,0)/(1,1) attacks and a range-1 archer on the
same pair does not. -/
theorem c7_canAttack_matches_range_predicates :
    (∀ u t : GUnit, canAttack u t = true ↔
      ((u.utype = .melee ∧ chebyshev (posOf u) (posOf t) ≤ 1) ∨
       (u.utype = .archer ∧ manhattan (posOf u) (posOf t) ≤ u.range)))
    ∧ canAttack c7melee c7target = true
    ∧ canAttack c7archer c7target = false := by
  refine ⟨fun u t => ?_, by decide, by decide⟩
  cases hu : u.utype with
  | melee => simp [canAttack, hu, chebyshev, posOf, Nat.max_le]
  | archer => simp [canAttack, hu]

/-- C8 counterexample: in `c8Units` no enemy is in unit 1's attack range and
a two-step-feasible enemy exists (unit 4, per the spec's feasibility check
`twoStepFeasibleSpec`), yet `selectTarget` returns the infeasible closest
enemy 3 — the code performs no feasibility restriction before its distance
scoring. -/
theorem c8_selectTarget_ignores_feasibility :
    ((selectTarget c8Units 1000 c8Unit).map (·.uid)) = some 3
    ∧ twoStepFeasibleSpec c8Unit (createUnit 4 .Soldier .B 3 0) c8Occ = true
    ∧ twoStepFeasibleSpec c8Unit (createUnit 3 .Soldier .B 0 2) c8Occ = false
    ∧ (c8Units.all fun e => e.team == c8Unit.team || !canAttack c8Unit e) = true := by
  exact ⟨by decide, by decide, by decide, by decide⟩

/-- The first-minimum loop of `selectTarget` returns a member of the list
achieving the minimal key. -/
theorem pickBy_lt_spec {α : Type} (f : α → Nat) (l : List α) (h : l ≠ []) :
    ∃ r, pickBy (· < ·) f l = some r ∧ r ∈ l ∧ ∀ e ∈ l, f r ≤ f e := by
  have aux : ∀ (t : List α) (b : α),
      (t.foldl (fun best e => if f e < f best then e else best) b = b ∨
        t.foldl (fun best e => if f e < f best then e else best) b ∈ t)
      ∧ f (t.foldl (fun best e => if f e < f best then e else best) b) ≤ f b
      ∧ ∀ e ∈ t, f (t.foldl (fun best e => if f e < f best then e else best) b) ≤ f e := by
    intro t
    induction t with
    | nil => intro b; simp
    | cons e t ih =>
      intro b
      simp only [List.foldl_cons]
      obtain ⟨hmem, hle, hall⟩ := ih (if f e < f b then e else b)
      have h1 : f (if f e < f b then e else b) ≤ f b := by
        by_cases hc : f e < f b
        · rw [if_pos hc]; omega
        · rw [if_neg hc]
      have h2 : f (if f e < f b then e else b) ≤ f e := by
        by_cases hc : f e < f b
        · rw [if_pos hc]
        · rw [if_neg hc]; omega
      refine ⟨?_, le_trans hle h1, ?_⟩
      · rcases hmem with hb | ht
        · by_cases hc : f e < f b
          · rw [hb, if_pos hc]; exact Or.inr (List.mem_cons_self e t)
          · rw [hb, if_neg hc]; exact Or.inl rfl
        · exact Or.inr (List.mem_cons_of_mem e ht)
      · intro x hx
        rcases List.mem_cons.mp hx with rfl | hx
        · exact le_trans hle h2
        · exact hall x hx
  match l, h with
  | b :: t, _ =>
    have hpick : pickBy (· < ·) f (b :: t)
        = some (t.foldl (fun best e => if f e < f best then e else best) b) := by
      simp only [pickBy, decide_eq_true_eq]
    obtain ⟨hmem, hle, hall⟩ := aux t b
    refine ⟨_, hpick, ?_, ?_⟩
    · rcases hmem with hb | ht
      · rw [hb]; exact List.mem_cons_self b t
      · exact List.mem_cons_of_mem b ht
    · intro x hx
      rcases List.mem_cons.mp hx with rfl | hx
      · exact hle
      · exact hall x hx

/-- C8 amended: `selectTarget` performs no two-step-feasibility restriction.
When no enemy is within the acting melee unit's attack range, it applies
taunt filtering to the visible enemies and then simply returns an enemy of
minimal Manhattan distance from that pool, regardless of movement
feasibility. -/
theorem c8_selectTarget_closest_of_taunt_pool
    (units : List GUnit) (now : Nat) (u : GUnit)
    (hm : u.utype = .melee)
    (henem : (units.filter fun e => e.team ≠ u.team && e.hp > 0 && !(isInvisible now e)) ≠ [])
    (hnr : (units.filter fun e =>
        e.team ≠ u.team && e.hp > 0 && !(isInvisible now e)).filter (canAttack u) = []) :
    ∃ tgt, selectTarget units now u = some tgt ∧
      (let enemies := units.filter fun e => e.team ≠ u.team && e.hp > 0 && !(isInvisible now e)
       let taunters := enemies.filter (·.canTaunt)
       let pool := if !taunters.isEmpty then taunters else enemies
       tgt ∈ pool ∧ ∀ e ∈ pool,
         manhattan (posOf u) (posOf tgt) ≤ manhattan (posOf u) (posOf e)) := by
  unfold selectTarget
  simp only [hnr, hm, List.isEmpty_nil, Bool.not_true, Bool.false_eq_true, if_false,
    List.isEmpty_eq_true, henem, if_neg]
  set enemies := units.filter fun e => e.team ≠ u.team && e.hp > 0 && !(isInvisible now e)
    with henemdef
  have hpool : (if !(enemies.filter (·.canTaunt)).isEmpty then enemies.filter (·.canTaunt)
      else enemies) ≠ [] := by
    by_cases hT : (enemies.filter (·.canTaunt)).isEmpty
    · simpa [hT] using henem
    · simp only [hT, Bool.not_false, if_true]
      intro hc
      rw [hc] at hT
      exact hT rfl
  obtain ⟨r, hr, hrmem, hrmin⟩ := pickBy_lt_spec (fun e => manhattan (posOf u) (posOf e)) _ hpool
  exact ⟨r, hr, hrmem, hrmin⟩

/-- Witness for `c8_selectTarget_closest_of_taunt_pool` on the `c8Units`
fixture. -/
theorem c8_selectTarget_closest_of_taunt_pool_witness :
    (c8Unit.utype = .melee
      ∧ (c8Units.filter fun e => e.team ≠ c8Unit.team && e.hp > 0 && !(isInvisible 1000 e)) ≠ []
      ∧ (c8Units.filter fun e =>
          e.team ≠ c8Unit.team && e.hp > 0 && !(isInvisible 1000 e)).filter (canAttack c8Unit) = [])
    ∧ ∃ tgt, selectTarget c8Units 1000 c8Unit = some tgt ∧
      (let enemies := c8Units.filter fun e =>
          e.team ≠ c8Unit.team && e.hp > 0 && !(isInvisible 1000 e)
       let taunters := enemies.filter (·.canTaunt)
       let pool := if !taunters.isEmpty then taunters else enemies
       tgt ∈ pool ∧ ∀ e ∈ pool,
         manhattan (posOf c8Unit) (posOf tgt) ≤ manhattan (posOf c8Unit) (posOf e)) :=
  ⟨⟨by decide, by decide, by decide⟩,
    c8_selectTarget_closest_of_taunt_pool c8Units 1000 c8Unit (by decide) (by decide) (by decide)⟩

/-- `insertCmp` permutes a cons. -/
theorem insertCmp_perm {α : Type} (cmp : α → α → Int) (x : α) (l : List α) :
    List.Perm (insertCmp cmp x l) (x :: l) := by
  induction l with
  | nil => exact List.Perm.refl _
  | cons y ys ih =>
    simp only [insertCmp]
    by_cases hxy : cmp x y ≤ 0
    · rw [if_pos hxy]
    · rw [if_neg hxy]
      exact (ih.cons y).trans (List.Perm.swap x y ys)

/-- `sortByCmp` permutes its input. -/
theorem sortByCmp_perm {α : Type} (cmp : α → α → Int) (l : List α) :
    List.Perm (sortByCmp cmp l) l := by
  induction l with
  | nil => exact List.Perm.refl _
  | cons x xs ih =>
    exact (insertCmp_perm cmp x (sortByCmp cmp xs)).trans (ih.cons x)

/-- Inserting into a comparator-sorted list keeps it sorted, for a total and
transitive comparator. -/
theorem insertCmp_pairwise {α : Type} (cmp : α → α → Int)
    (htot : ∀ a b, cmp a b ≤ 0 ∨ cmp b a ≤ 0)
    (htr : ∀ a b c, cmp a b ≤ 0 → cmp b c ≤ 0 → cmp a c ≤ 0)
    (x : α) (l : List α) (hl : l.Pairwise fun a b => cmp a b ≤ 0) :
    (insertCmp cmp x l).Pairwise fun a b => cmp a b ≤ 0 := by
  induction l with
  | nil => simp [insertCmp]
  | cons y ys ih =>
    rcases List.pairwise_cons.mp hl with ⟨hy, hys⟩
    simp only [insertCmp]
    by_cases hxy : cmp x y ≤ 0
    · rw [if_pos hxy]
      refine List.pairwise_cons.mpr ⟨?_, hl⟩
      intro z hz
      rcases List.mem_cons.mp hz with rfl | hz
      · exact hxy
      · exact htr x y z hxy (hy z hz)
    · rw [if_neg hxy]
      refine List.pairwise_cons.mpr ⟨?_, ih hys⟩
      intro z hz
      rcases List.mem_cons.mp ((insertCmp_perm cmp x ys).mem_iff.mp hz) with hzx | hz
      · rw [hzx]; exact (htot x y).resolve_left hxy
      · exact hy z hz

/-- `sortByCmp` sorts, for a total and transitive comparator. -/
theorem sortByCmp_pairwise {α : Type} (cmp : α → α → Int)
    (htot : ∀ a b, cmp a b ≤ 0 ∨ cmp b a ≤ 0)
    (htr : ∀ a b c, cmp a b ≤ 0 → cmp b c ≤ 0 → cmp a c ≤ 0)
    (l : List α) : (sortByCmp cmp l).Pairwise fun a b => cmp a b ≤ 0 := by
  induction l with
  | nil => simp [sortByCmp]
  | cons x xs ih => exact insertCmp_pairwise cmp htot htr x (sortByCmp cmp xs) ih
/-- `deltaBetter` is irreflexive. -/
theorem deltaBetter_irrefl (d : Option Int) : ¬ deltaBetter d d := by
  cases d <;> simp [deltaBetter]

/-- `deltaBetter` is trichotomous. -/
theorem deltaBetter_trichotomy (da db : Option Int) :
    deltaBetter da db ∨ deltaBetter db da ∨ da = db := by
  cases da <;> cases db <;> simp [deltaBetter] <;> omega

/-- `deltaBetter` is transitive. -/
theorem deltaBetter_trans {da db dc : Option Int}
    (h1 : deltaBetter da db) (h2 : deltaBetter db dc) : deltaBetter da dc := by
  cases da <;> cases db <;> cases dc <;> simp_all [deltaBetter] <;> omega

/-- A non-positive `moverCmp` result means exactly the claimed priority
order: higher streak, then better best-delta, then id. -/
theorem moverCmp_nonpos_iff (streaks : List (Nat × Nat)) (em : List (Nat × List MoveEv))
    (a b : Nat) : moverCmp streaks em a b ≤ 0 ↔ moverPri streaks em a b := by
  unfold moverCmp moverPri
  by_cases hs : ((getA a streaks).getD 0 : Int) = ((getA b streaks).getD 0 : Int)
  · have hsn : (getA a streaks).getD 0 = (getA b streaks).getD 0 := by exact_mod_cast hs
    rw [if_neg (by simpa using hs)]
    by_cases hd : maxDelta ((getA a em).getD []) = maxDelta ((getA b em).getD [])
    · rw [if_neg (by simpa using hd)]
      constructor
      · intro h
        refine Or.inr ⟨hsn, Or.inr ⟨hd, ?_⟩⟩
        by_contra hab
        push_neg at hab
        rw [if_neg (by omega), if_pos (by omega)] at h
        omega
      · rintro (h | ⟨-, (h | ⟨-, hab⟩)⟩)
        · omega
        · exact absurd (hd ▸ h) (deltaBetter_irrefl _)
        · split_ifs <;> omega
    · rw [if_pos (by simpa using hd)]
      constructor
      · intro h
        refine Or.inr ⟨hsn, Or.inl ?_⟩
        rcases hda : maxDelta ((getA a em).getD []) with _ | x <;>
          rcases hdb : maxDelta ((getA b em).getD []) with _ | y <;>
            rw [hda, hdb] at h hd
        · exact absurd rfl hd
        · exact absurd h (by rw [show optDescCmp none (some y) = 1 from rfl]; omega)
        · simp [deltaBetter]
        · have hxy : x ≠ y := by simpa using hd
          simp only [optDescCmp] at h
          simp only [deltaBetter]
          omega
      · rintro (h | ⟨-, (h | ⟨h, -⟩)⟩)
        · omega
        · rcases hda : maxDelta ((getA a em).getD []) with _ | x <;>
            rcases hdb : maxDelta ((getA b em).getD []) with _ | y <;>
              rw [hda, hdb] at h
          · exact h.elim
          · exact h.elim
          · rw [show optDescCmp (some x) none = -1 from rfl]; omega
          · simp only [deltaBetter] at h
            simp only [optDescCmp]
            omega
        · exact absurd h hd
  · rw [if_pos (by simpa using hs)]
    have hsn : (getA a streaks).getD 0 ≠ (getA b streaks).getD 0 := by
      intro hc; exact hs (by exact_mod_cast hc)
    constructor
    · intro h
      refine Or.inl ?_
      have h2 : (((getA b streaks).getD 0 : Nat) : Int)
          ≤ (((getA a streaks).getD 0 : Nat) : Int) := by omega
      omega
    · rintro (h | ⟨h, -⟩)
      · have h2 : ((getA b streaks).getD 0 : Nat) < (getA a streaks).getD 0 := h
        omega
      · exact absurd h hsn

/-- `moverPri` is total. -/
theorem moverPri_total (streaks : List (Nat × Nat)) (em : List (Nat × List MoveEv))
    (a b : Nat) : moverPri streaks em a b ∨ moverPri streaks em b a := by
  unfold moverPri
  rcases Nat.lt_trichotomy ((getA a streaks).getD 0) ((getA b streaks).getD 0) with h | h | h
  · exact Or.inr (Or.inl h)
  · rcases deltaBetter_trichotomy (maxDelta ((getA a em).getD []))
        (maxDelta ((getA b em).getD [])) with hd | hd | hd
    · exact Or.inl (Or.inr ⟨h, Or.inl hd⟩)
    · exact Or.inr (Or.inr ⟨h.symm, Or.inl hd⟩)
    · rcases Nat.le_total a b with hab | hab
      · exact Or.inl (Or.inr ⟨h, Or.inr ⟨hd, hab⟩⟩)
      · exact Or.inr (Or.inr ⟨h.symm, Or.inr ⟨hd.symm, hab⟩⟩)
  · exact Or.inl (Or.inl h)

/-- `moverPri` is transitive. -/
theorem moverPri_trans (streaks : List (Nat × Nat)) (em : List (Nat × List MoveEv))
    (a b c : Nat) (h1 : moverPri streaks em a b) (h2 : moverPri streaks em b c) :
    moverPri streaks em a c := by
  unfold moverPri at h1 h2 ⊢
  rcases h1 with h1 | ⟨e1, h1⟩
  · rcases h2 with h2 | ⟨e2, h2⟩
    · exact Or.inl (by omega)
    · exact Or.inl (by omega)
  · rcases h2 with h2 | ⟨e2, h2⟩
    · exact Or.inl (by omega)
    · refine Or.inr ⟨e1.trans e2, ?_⟩
      rcases h1 with h1 | ⟨d1, hab⟩
      · rcases h2 with h2 | ⟨d2, hbc⟩
        · exact Or.inl (deltaBetter_trans h1 h2)
        · exact Or.inl (d2 ▸ h1)
      · rcases h2 with h2 | ⟨d2, hbc⟩
        · exact Or.inl (d1 ▸ h2)
        · exact Or.inr ⟨d1.trans d2, le_trans hab hbc⟩

/-- C9: the tick's mover ordering is exactly the claimed priority order: the
resolver's `moversOrdered` is `sortByCmp (moverCmp ...)` of the mover ids,
which is a permutation of the movers in which every earlier mover relates to
every later one by: strictly higher denied streak, or equal streak and
strictly better best available delta, or equal on both and unit id at most
the other's — so every mover with a strictly higher streak precedes every
mover with a lower streak, and the stated tie-breaks settle the rest. -/
theorem c9_mover_ordering (streaks : List (Nat × Nat)) (em : List (Nat × List MoveEv))
    (l : List Nat) :
    (sortByCmp (moverCmp streaks em) l).Pairwise (moverPri streaks em)
    ∧ List.Perm (sortByCmp (moverCmp streaks em) l) l
    ∧ ∀ (units snapshot : List GUnit) (now : Nat) (pending : List MoveEv),
        (resolvePhase units snapshot streaks now pending).moversOrdered
          = sortByCmp (moverCmp streaks (resolvePhase units snapshot streaks now pending).edgesByUnit)
              (resolvePhase units snapshot streaks now pending).moverIds := by
  refine ⟨?_, sortByCmp_perm _ l, fun units snapshot now pending => rfl⟩
  have htot : ∀ a b, moverCmp streaks em a b ≤ 0 ∨ moverCmp streaks em b a ≤ 0 := by
    intro a b
    rw [moverCmp_nonpos_iff, moverCmp_nonpos_iff]
    exact moverPri_total streaks em a b
  have htr : ∀ a b c, moverCmp streaks em a b ≤ 0 → moverCmp streaks em b c ≤ 0 →
      moverCmp streaks em a c ≤ 0 := by
    intro a b c h1 h2
    rw [moverCmp_nonpos_iff] at h1 h2 ⊢
    exact moverPri_trans streaks em a b c h1 h2
  exact (sortByCmp_pairwise _ htot htr l).imp
    (fun h => (moverCmp_nonpos_iff streaks em _ _).mp h)

/-- C10: `attack` has exactly the claimed frame: element-wise over the
roster, the target loses exactly the attacker's `atk` from `hp`, the
attacker gets `lastAttackAt := now` and — only when previously unset — a
target lock; position, team, archetype, `maxHp`, `atk`, `range`, taunt,
invisibility and cooldown fields of every unit, the attacker's hp, and every
other unit's record are unchanged; the attack-history and the three
visual-effect lists each gain exactly one entry and the id counter advances
by the two generated effect ids. -/
theorem c10_attack_frame (now : Nat) (aId tId : Nat) (cs : CombatState)
    (a t : GUnit)
    (hne : aId ≠ tId)
    (ha : findUnit cs.units aId = some a)
    (ht : findUnit cs.units tId = some t) :
    (attack now aId tId cs).units.length = cs.units.length
    ∧ List.Forall₂ (fun (u u' : GUnit) =>
        u'.uid = u.uid ∧ u'.team = u.team ∧ u'.utype = u.utype ∧ u'.x = u.x ∧ u'.y = u.y
        ∧ u'.maxHp = u.maxHp ∧ u'.atk = u.atk ∧ u'.range = u.range
        ∧ u'.canTaunt = u.canTaunt ∧ u'.invisibleTill = u.invisibleTill
        ∧ u'.attackCooldownMs = u.attackCooldownMs
        ∧ (u.uid = tId → u'.hp = u.hp - a.atk)
        ∧ (u.uid ≠ tId → u'.hp = u.hp)
        ∧ (u.uid = aId → u'.lastAttackAt = now ∧
            u'.lockedTargetId = (match u.lockedTargetId with
              | none => some tId
              | some z => some z))
        ∧ (u.uid ≠ aId → u'.lastAttackAt = u.lastAttackAt ∧
            u'.lockedTargetId = u.lockedTargetId))
        cs.units (attack now aId tId cs).units
    ∧ (attack now aId tId cs).pendingAttacks = cs.pendingAttacks ++
        [{ attackerId := aId, targetId := tId, fromX := a.x, fromY := a.y,
           toX := t.x, toY := t.y, damage := a.atk }]
    ∧ (attack now aId tId cs).attackEffects = cs.attackEffects ++
        [{ eid := cs.idCounter + 1, fromX := a.x, fromY := a.y,
           toX := t.x, toY := t.y, timestamp := now }]
    ∧ (attack now aId tId cs).particleEffects = cs.particleEffects ++
        [{ eid := cs.idCounter + 2, x := t.x, y := t.y, timestamp := now }]
    ∧ (attack now aId tId cs).tileFlashes = cs.tileFlashes ++
        [{ x := t.x, y := t.y, timestamp := now }]
    ∧ (attack now aId tId cs).idCounter = cs.idCounter + 2 := by
  unfold attack
  rw [ha, ht]
  refine ⟨by simp, ?_, rfl, rfl, rfl, rfl, rfl⟩
  simp only [List.forall₂_map_right_iff]
  rw [List.forall₂_same]
  intro u hu
  by_cases hua : u.uid = aId <;> by_cases hut : u.uid = tId
  · exact absurd (hua.symm.trans hut) hne
  · simp [hua, hut, hne]
  · simp [hua, hut, Ne.symm hne]
  · simp [hua, hut]

/-- Witness for `c10_attack_frame`: unit 1 attacks unit 2 in `c10cs`. -/
theorem c10_attack_frame_witness :
    ((1 : Nat) ≠ 2
      ∧ findUnit c10cs.units 1 = some (createUnit 1 .Soldier .A 0 0)
      ∧ findUnit c10cs.units 2 = some (createUnit 2 .Soldier .B 1 1))
    ∧ ((attack 1000 1 2 c10cs).units.length = c10cs.units.length
    ∧ List.Forall₂ (fun (u u' : GUnit) =>
        u'.uid = u.uid ∧ u'.team = u.team ∧ u'.utype = u.utype ∧ u'.x = u.x ∧ u'.y = u.y
        ∧ u'.maxHp = u.maxHp ∧ u'.atk = u.atk ∧ u'.range = u.range
        ∧ u'.canTaunt = u.canTaunt ∧ u'.invisibleTill = u.invisibleTill
        ∧ u'.attackCooldownMs = u.attackCooldownMs
        ∧ (u.uid = 2 → u'.hp = u.hp - (createUnit 1 .Soldier .A 0 0).atk)
        ∧ (u.uid ≠ 2 → u'.hp = u.hp)
        ∧ (u.uid = 1 → u'.lastAttackAt = 1000 ∧
            u'.lockedTargetId = (match u.lockedTargetId with
              | none => some 2
              | some z => some z))
        ∧ (u.uid ≠ 1 → u'.lastAttackAt = u.lastAttackAt ∧
            u'.lockedTargetId = u.lockedTargetId))
        c10cs.units (attack 1000 1 2 c10cs).units
    ∧ (attack 1000 1 2 c10cs).pendingAttacks = c10cs.pendingAttacks ++
        [{ attackerId := 1, targetId := 2,
           fromX := (createUnit 1 .Soldier .A 0 0).x, fromY := (createUnit 1 .Soldier .A 0 0).y,
           toX := (createUnit 2 .Soldier .B 1 1).x, toY := (createUnit 2 .Soldier .B 1 1).y,
           damage := (createUnit 1 .Soldier .A 0 0).atk }]
    ∧ (attack 1000 1 2 c10cs).attackEffects = c10cs.attackEffects ++
        [{ eid := c10cs.idCounter + 1,
           fromX := (createUnit 1 .Soldier .A 0 0).x, fromY := (createUnit 1 .Soldier .A 0 0).y,
           toX := (createUnit 2 .Soldier .B 1 1).x, toY := (createUnit 2 .Soldier .B 1 1).y,
           timestamp := 1000 }]
    ∧ (attack 1000 1 2 c10cs).particleEffects = c10cs.particleEffects ++
        [{ eid := c10cs.idCounter + 2,
           x := (createUnit 2 .Soldier .B 1 1).x, y := (createUnit 2 .Soldier .B 1 1).y,
           timestamp := 1000 }]
    ∧ (attack 1000 1 2 c10cs).tileFlashes = c10cs.tileFlashes ++
        [{ x := (createUnit 2 .Soldier .B 1 1).x, y := (createUnit 2 .Soldier .B 1 1).y,
           timestamp := 1000 }]
    ∧ (attack 1000 1 2 c10cs).idCounter = c10cs.idCounter + 2) :=
  ⟨⟨by decide, by decide, by decide⟩,
    c10_attack_frame 1000 1 2 c10cs (createUnit 1 .Soldier .A 0 0)
      (createUnit 2 .Soldier .B 1 1) (by decide) (by decide) (by decide)⟩

/-- Looking up the key just set. -/
theorem getA_setA_self {κ ν : Type} [DecidableEq κ] (k : κ) (v : ν) (m : List (κ × ν)) :
    getA k (setA k v m) = some v := by
  induction m with
  | nil => simp [setA, getA]
  | cons p t ih =>
    obtain ⟨k', v'⟩ := p
    by_cases hk : k' = k
    · simp [setA, getA, hk]
    · simp only [setA, if_neg hk, getA, if_neg hk]
      exact ih

/-- Looking up another key after a set. -/
theorem getA_setA_ne {κ ν : Type} [DecidableEq κ] {j k : κ} (v : ν) (m : List (κ × ν))
    (h : j ≠ k) : getA j (setA k v m) = getA j m := by
  have hkj : ¬ k = j := fun hc => h hc.symm
  induction m with
  | nil =>
    simp only [setA, getA]
    rw [if_neg hkj]
  | cons p t ih =>
    obtain ⟨k', v'⟩ := p
    by_cases hk : k' = k
    · simp only [setA, if_pos hk, getA]
      rw [if_neg hkj, if_neg (by rw [hk]; exact hkj)]
    · simp only [setA, if_neg hk, getA]
      by_cases hj : k' = j
      · rw [if_pos hj, if_pos hj]
      · rw [if_neg hj, if_neg hj]
        exact ih

/-- A member of `setA k v m` is the new pair or an old member. -/
theorem mem_setA {κ ν : Type} [DecidableEq κ] {x : κ × ν} {k : κ} {v : ν} {m : List (κ × ν)}
    (hx : x ∈ setA k v m) : x = (k, v) ∨ x ∈ m := by
  induction m with
  | nil =>
    simp only [setA] at hx
    exact Or.inl (List.mem_singleton.mp hx)
  | cons q t ih =>
    obtain ⟨kq, vq⟩ := q
    by_cases hq : kq = k
    · simp only [setA, if_pos hq] at hx
      rcases List.mem_cons.mp hx with h1 | h1
      · exact Or.inl h1
      · exact Or.inr (List.mem_cons_of_mem _ h1)
    · simp only [setA, if_neg hq] at hx
      rcases List.mem_cons.mp hx with h1 | h1
      · exact Or.inr (h1 ▸ List.mem_cons_self _ _)
      · rcases ih h1 with h2 | h2
        · exact Or.inl h2
        · exact Or.inr (List.mem_cons_of_mem _ h2)

/-- Assigning an empty-at-start destination preserves swap-freedom. -/
theorem swapFree_assign_empty {socc : List (Cell × Nat)} {m : List (Nat × Cell)}
    (hsf : SwapFree socc m) {u : Nat} {d : Cell} (hd : getA d socc = none) :
    SwapFree socc (setA u d m) := by
  intro a b ca cb hab hca hcb hma hmb
  by_cases hau : a = u
  · rw [hau, getA_setA_self] at hma
    have hdc : d = cb := Option.some.inj hma
    rw [← hdc, hd] at hcb
    exact Option.noConfusion hcb
  · rw [getA_setA_ne _ _ hau] at hma
    by_cases hbu : b = u
    · rw [hbu, getA_setA_self] at hmb
      have hdc : d = ca := Option.some.inj hmb
      rw [← hdc, hd] at hca
      exact Option.noConfusion hca
    · rw [getA_setA_ne _ _ hbu] at hmb
      exact hsf a b ca cb hab hca hcb hma hmb

/-- Assigning a start-occupied destination preserves swap-freedom provided
the (re-routed) occupant's current assignment avoids every cell occupied by
the assignee. -/
theorem swapFree_assign_occupied {socc : List (Cell × Nat)} {m : List (Nat × Cell)}
    (hsf : SwapFree socc m) {u v : Nat} {d dv : Cell}
    (hd : getA d socc = some v) (hvu : v ≠ u)
    (hmv : getA v m = some dv)
    (havoid : ∀ cu, getA cu socc = some u → dv ≠ cu) :
    SwapFree socc (setA u d m) := by
  intro a b ca cb hab hca hcb hma hmb
  by_cases hau : a = u
  · rw [hau, getA_setA_self] at hma
    have hcb' : d = cb := Option.some.inj hma
    rw [← hcb', hd] at hcb
    have hbv : v = b := Option.some.inj hcb
    rw [getA_setA_ne _ _ (by rw [← hbv]; exact hvu)] at hmb
    rw [← hbv, hmv] at hmb
    have hdv : dv = ca := Option.some.inj hmb
    exact havoid ca (hau ▸ hca) hdv
  · rw [getA_setA_ne _ _ hau] at hma
    by_cases hbu : b = u
    · rw [hbu, getA_setA_self] at hmb
      have hca' : d = ca := Option.some.inj hmb
      rw [← hca', hd] at hca
      have hav : v = a := Option.some.inj hca
      rw [← hav, hmv] at hma
      have hdv : dv = cb := Option.some.inj hma
      exact havoid cb (hbu ▸ hcb) hdv
    · rw [getA_setA_ne _ _ hbu] at hmb
      exact hsf a b ca cb hab hca hcb hma hmb

/-- Distinct keys are preserved by `setA`. -/
theorem keysNodup_setA {κ ν : Type} [DecidableEq κ] (k : κ) (v : ν) (m : List (κ × ν))
    (h : (m.map Prod.fst).Nodup) : ((setA k v m).map Prod.fst).Nodup := by
  induction m with
  | nil => simp [setA]
  | cons p t ih =>
    obtain ⟨k', v'⟩ := p
    simp only [List.map_cons, List.nodup_cons] at h
    by_cases hk : k' = k
    · simp only [setA, if_pos hk, List.map_cons, List.nodup_cons]
      exact ⟨hk ▸ h.1, h.2⟩
    · simp only [setA, if_neg hk, List.map_cons, List.nodup_cons]
      refine ⟨?_, ih h.2⟩
      intro hc
      rcases List.mem_map.mp hc with ⟨x, hx, hx1⟩
      rcases mem_setA hx with h1 | h1
      · exact hk (by rw [← hx1, h1])
      · exact h.1 (hx1 ▸ List.mem_map_of_mem Prod.fst h1)

/-- With distinct keys, a list member is what lookup returns. -/
theorem getA_of_mem {κ ν : Type} [DecidableEq κ] {m : List (κ × ν)}
    (h : (m.map Prod.fst).Nodup) {k : κ} {v : ν} (hm : (k, v) ∈ m) :
    getA k m = some v := by
  induction m with
  | nil => cases hm
  | cons p t ih =>
    obtain ⟨k', v'⟩ := p
    simp only [List.map_cons, List.nodup_cons] at h
    rcases List.mem_cons.mp hm with heq | hm'
    · obtain ⟨h1, h2⟩ := Prod.ext_iff.mp heq.symm
      have h1' : k' = k := h1
      have h2' : v' = v := h2
      simp only [getA]
      rw [if_pos h1', h2']
    · simp only [getA]
      by_cases hk : k' = k
      · exact absurd (hk ▸ List.mem_map_of_mem Prod.fst hm') h.1
      · rw [if_neg hk]
        exact ih h.2 hm'

/-- The core invariant of the augmenting search: along any `dfs` run, the
visited-unit set only grows, the assignment map keeps distinct keys and
stays swap-free, and a successful run leaves the searched unit assigned to a
destination whose start-occupant (if any) was not yet visited when the run
began. -/
theorem dfsE_invariant (em : List (Nat × List MoveEv)) (socc : List (Cell × Nat)) :
    ∀ (fuel : Nat) (uId : Nat) (root : Cell) (es : List MoveEv) (st : RState),
      uId ∈ st.seenU →
      SwapFree socc st.unitToDest →
      (st.unitToDest.map Prod.fst).Nodup →
      st.seenU ⊆ (dfsE em socc fuel uId root es st).2.seenU
      ∧ SwapFree socc (dfsE em socc fuel uId root es st).2.unitToDest
      ∧ ((dfsE em socc fuel uId root es st).2.unitToDest.map Prod.fst).Nodup
      ∧ ((dfsE em socc fuel uId root es st).1 = true →
          ∃ d, getA uId (dfsE em socc fuel uId root es st).2.unitToDest = some d ∧
            ∀ w, getA d socc = some w → w ∉ st.seenU) := by
  intro fuel
  induction fuel with
  | zero =>
    intro uId root es st hu hsf hnd
    exact ⟨fun x hx => hx, hsf, hnd, by simp [dfsE]⟩
  | succ fuel ih =>
    intro uId root es st hu hsf hnd
    rcases es with _ | ⟨e, rest⟩
    · exact ⟨fun x hx => hx, hsf, hnd, by simp [dfsE]⟩
    simp only [dfsE]
    by_cases hseen : ((e.toX, e.toY) : Cell) ∈ st.seenD
    · simp only [if_pos hseen]
      exact ih uId root rest st hu hsf hnd
    simp only [if_neg hseen]
    rcases hocc : getA ((e.toX, e.toY) : Cell) socc with _ | occId
    · simp only [hocc]
      rcases hdu : getA ((e.toX, e.toY) : Cell) st.destToUnit with _ | m
      · simp only [hdu]
        refine ⟨fun x hx => hx, swapFree_assign_empty hsf hocc, keysNodup_setA _ _ _ hnd, ?_⟩
        intro _
        refine ⟨(e.toX, e.toY), getA_setA_self _ _ _, ?_⟩
        intro w hw
        rw [hocc] at hw
        exact Option.noConfusion hw
      · simp only [hdu]
        by_cases hm : m ∈ st.seenU
        · simp only [if_pos hm]
          exact ih uId root rest { st with seenD := (e.toX, e.toY) :: st.seenD } hu hsf hnd
        · simp only [if_neg hm]
          rcases hn : dfsE em socc fuel m root ((getA m em).getD [])
              { st with seenU := m :: st.seenU, seenD := (e.toX, e.toY) :: st.seenD }
            with ⟨b2, st2⟩
          have IHn := ih m root ((getA m em).getD [])
            { st with seenU := m :: st.seenU, seenD := (e.toX, e.toY) :: st.seenD }
            (List.mem_cons_self _ _) hsf hnd
          rw [hn] at IHn
          obtain ⟨IH1, IH2, IH3, IH4⟩ := IHn
          have hsub : st.seenU ⊆ st2.seenU :=
            fun x hx => IH1 (List.mem_cons_of_mem _ hx)
          cases b2
          · simp only [hn]
            have hres := ih uId root rest st2 (hsub hu) IH2 IH3
            refine ⟨fun x hx => hres.1 (hsub hx), hres.2.1, hres.2.2.1, ?_⟩
            intro hb
            obtain ⟨d', hd1, hd2⟩ := hres.2.2.2 hb
            exact ⟨d', hd1, fun w hw hwin => hd2 w hw (hsub hwin)⟩
          · simp only [hn]
            refine ⟨hsub, swapFree_assign_empty IH2 hocc, keysNodup_setA _ _ _ IH3, ?_⟩
            intro _
            refine ⟨(e.toX, e.toY), getA_setA_self _ _ _, ?_⟩
            intro w hw
            rw [hocc] at hw
            exact Option.noConfusion hw
    · simp only [hocc]
      by_cases ho1 : occId = uId
      · simp only [if_pos ho1]
        exact ih uId root rest { st with seenD := (e.toX, e.toY) :: st.seenD } hu hsf hnd
      simp only [if_neg ho1]
      by_cases ho2 : getA occId st.unitToDest = some root
      · simp only [if_pos ho2]
        exact ih uId root rest { st with seenD := (e.toX, e.toY) :: st.seenD } hu hsf hnd
      simp only [if_neg ho2]
      by_cases ho3 : occId ∈ st.seenU
      · simp only [if_pos ho3]
        exact ih uId root rest { st with seenD := (e.toX, e.toY) :: st.seenD } hu hsf hnd
      simp only [if_neg ho3]
      rcases hn : dfsE em socc fuel occId root ((getA occId em).getD [])
          { st with seenU := occId :: st.seenU, seenD := (e.toX, e.toY) :: st.seenD }
        with ⟨b2, st2⟩
      have IHn := ih occId root ((getA occId em).getD [])
        { st with seenU := occId :: st.seenU, seenD := (e.toX, e.toY) :: st.seenD }
        (List.mem_cons_self _ _) hsf hnd
      rw [hn] at IHn
      obtain ⟨IH1, IH2, IH3, IH4⟩ := IHn
      have hsub : st.seenU ⊆ st2.seenU :=
        fun x hx => IH1 (List.mem_cons_of_mem _ hx)
      cases b2
      · simp only [hn]
        have hres := ih uId root rest st2 (hsub hu) IH2 IH3
        refine ⟨fun x hx => hres.1 (hsub hx), hres.2.1, hres.2.2.1, ?_⟩
        intro hb
        obtain ⟨d', hd1, hd2⟩ := hres.2.2.2 hb
        exact ⟨d', hd1, fun w hw hwin => hd2 w hw (hsub hwin)⟩
      · simp only [hn]
        obtain ⟨dw, hdw1, hdw2⟩ := IH4 rfl
        refine ⟨hsub, ?_, keysNodup_setA _ _ _ IH3, ?_⟩
        · refine swapFree_assign_occupied IH2 hocc ho1 hdw1 ?_
          intro cu hcu hdvcu
          exact hdw2 uId (hdvcu ▸ hcu) (List.mem_cons_of_mem _ hu)
        · intro _
          refine ⟨(e.toX, e.toY), getA_setA_self _ _ _, ?_⟩
          intro w hw
          rw [hocc] at hw
          have : occId = w := Option.some.inj hw
          rw [← this]
          exact ho3

/-- The matching fold of the resolver keeps the assignment map swap-free
with distinct keys. -/
theorem matchingFold_invariant (em : List (Nat × List MoveEv)) (socc : List (Cell × Nat))
    (fuel : Nat) (pairs : List (Nat × Cell)) :
    ∀ st0 : RState, SwapFree socc st0.unitToDest → (st0.unitToDest.map Prod.fst).Nodup →
      SwapFree socc ((pairs.foldl (fun st (p : Nat × Cell) =>
          (dfsE em socc fuel p.1 p.2 ((getA p.1 em).getD [])
            { st with seenU := [p.1], seenD := [] }).2) st0).unitToDest)
      ∧ (((pairs.foldl (fun st (p : Nat × Cell) =>
          (dfsE em socc fuel p.1 p.2 ((getA p.1 em).getD [])
            { st with seenU := [p.1], seenD := [] }).2) st0).unitToDest).map Prod.fst).Nodup := by
  induction pairs with
  | nil => intro st0 h1 h2; exact ⟨h1, h2⟩
  | cons p t ih =>
    intro st0 h1 h2
    simp only [List.foldl_cons]
    have hstep := dfsE_invariant em socc fuel p.1 p.2 ((getA p.1 em).getD [])
      { st0 with seenU := [p.1], seenD := [] } (List.mem_cons_self _ _) h1 h2
    exact ih _ hstep.2.1 hstep.2.2.1

/-- Folding `setA` over units whose positions avoid `c` leaves lookups at
`c` unchanged. -/
theorem getA_foldl_setA_of_ne {l : List GUnit} {c : Cell} (h : ∀ u ∈ l, posOf u ≠ c) :
    ∀ m0 : List (Cell × Nat),
      getA c (l.foldl (fun m v => setA (posOf v) v.uid m) m0) = getA c m0 := by
  induction l with
  | nil => intro m0; rfl
  | cons x t ih =>
    intro m0
    simp only [List.foldl_cons]
    rw [ih (fun u hu => h u (List.mem_cons_of_mem _ hu))]
    exact getA_setA_ne _ _ (fun hc => h x (List.mem_cons_self _ _) hc.symm)

/-- With distinct positions, the start-occupancy fold maps every unit's cell
to its id. -/
theorem buildOcc_aux : ∀ (l : List GUnit), (l.map posOf).Nodup →
    ∀ m0 : List (Cell × Nat), ∀ u ∈ l,
      getA (posOf u) (l.foldl (fun m v => setA (posOf v) v.uid m) m0) = some u.uid := by
  intro l
  induction l with
  | nil => intro _ m0 u hu; cases hu
  | cons x t ih =>
    intro hnd m0 u hu
    simp only [List.map_cons, List.nodup_cons] at hnd
    simp only [List.foldl_cons]
    rcases List.mem_cons.mp hu with rfl | hu2
    · rw [getA_foldl_setA_of_ne
        (fun v hv hc => hnd.1 (by rw [← hc]; exact List.mem_map_of_mem posOf hv))]
      exact getA_setA_self _ _ _
    · exact ih hnd.2 _ u hu2

/-- `buildStartOcc` maps every snapshot unit's cell to its id when the
snapshot's positions are distinct. -/
theorem buildStartOcc_getA {snapshot : List GUnit} (hpos : (snapshot.map posOf).Nodup)
    {u : GUnit} (hu : u ∈ snapshot) :
    getA (posOf u) (buildStartOcc snapshot) = some u.uid :=
  buildOcc_aux snapshot hpos [] u hu

/-- Mapping by a `unitKey`-preserving function keeps the key projection. -/
theorem map_unitKey_of_pres {f : GUnit → GUnit} (hf : ∀ u, unitKey (f u) = unitKey u)
    (l : List GUnit) : (l.map f).map unitKey = l.map unitKey := by
  rw [List.map_map]
  exact List.map_congr_left (fun u _ => hf u)

/-- `attack` preserves every unit's identity and position. -/
theorem attack_unitKey (now a b : Nat) (cs : CombatState) :
    ((attack now a b cs).units).map unitKey = cs.units.map unitKey := by
  unfold attack
  rcases h1 : findUnit cs.units a with _ | ua
  · rfl
  rcases h2 : findUnit cs.units b with _ | ub
  · rfl
  refine map_unitKey_of_pres ?_ _
  intro u
  by_cases hua : u.uid = a <;> by_cases hub2 : u.uid = b <;>
    by_cases hab : a = b <;> simp_all [unitKey]

/-- One action-loop step preserves every unit's identity and position. -/
theorem actStep_unitKey (now : Nat) (occ : List Cell) (ctx : ActCtx) (suid : Nat) :
    ((actStep now occ ctx suid).cs.units).map unitKey = ctx.cs.units.map unitKey := by
  unfold actStep
  rcases h1 : findUnit ctx.cs.units suid with _ | u <;> simp only [h1]
  by_cases hhp : u.hp ≤ 0
  · rw [if_pos hhp]
  rw [if_neg hhp]
  repeat' split
  all_goals
    first
      | rfl
      | exact map_unitKey_of_pres
          (fun v => by by_cases hv : v.uid = suid <;> simp [unitKey, hv]) _
      | (rw [attack_unitKey] <;>
          first
            | rfl
            | exact map_unitKey_of_pres
                (fun v => by by_cases hv : v.uid = suid <;> simp [unitKey, hv]) _)

/-- The assignment map produced by the matching loop is swap-free with
distinct keys. -/
theorem runMatching_invariant (em : List (Nat × List MoveEv)) (socc : List (Cell × Nat))
    (fuel : Nat) (pairs : List (Nat × Cell)) :
    SwapFree socc (runMatching em socc fuel pairs).unitToDest
    ∧ (((runMatching em socc fuel pairs).unitToDest).map Prod.fst).Nodup := by
  refine matchingFold_invariant em socc fuel pairs ⟨[], [], [], []⟩ ?_ (by simp)
  intro a b ca cb hab hca hcb hma hmb
  simp [getA] at hma

/-- The whole action-loop fold preserves every unit's identity and
position. -/
theorem foldl_actStep_unitKey (now : Nat) (occ : List Cell) (ids : List Nat) :
    ∀ ctx : ActCtx, (((ids.foldl (actStep now occ) ctx).cs.units).map unitKey)
      = ctx.cs.units.map unitKey := by
  induction ids with
  | nil => intro ctx; rfl
  | cons i t ih =>
    intro ctx
    simp only [List.foldl_cons]
    rw [ih, actStep_unitKey]

/-- The action phase of a tick preserves every unit's identity and
position. -/
theorem tickActionPhase_unitKey (now : Nat) (s : GState) :
    (((tickActionPhase now s).cs.units).map unitKey) = s.units.map unitKey := by
  unfold tickActionPhase
  exact foldl_actStep_unitKey _ _ _ _

/-- `findUnit` commutes with the identity-and-position projection. -/
theorem findUnit_unitKey {l2 l : List GUnit} (h : l2.map unitKey = l.map unitKey)
    (uid : Nat) :
    Option.map unitKey (findUnit l2 uid) = Option.map unitKey (findUnit l uid) := by
  induction l2 generalizing l with
  | nil =>
    cases l with
    | nil => rfl
    | cons y s => simp at h
  | cons x t ih =>
    cases l with
    | nil => simp at h
    | cons y s =>
      simp only [List.map_cons, List.cons.injEq] at h
      obtain ⟨hxy, hts⟩ := h
      have huid : x.uid = y.uid := (Prod.ext_iff.mp hxy).1
      unfold findUnit
      rw [List.find?_cons, List.find?_cons]
      by_cases hx : x.uid = uid
      · rw [decide_eq_true hx, decide_eq_true (huid.symm.trans hx)]
        simp [hxy]
      · rw [decide_eq_false hx, decide_eq_false (fun hc => hx (huid.trans hc))]
        exact ih hts

/-- `endRound` never touches the history. -/
theorem endRound_history (w : Team) (s : GState) : (endRound w s).history = s.history := by
  unfold endRound
  cases w <;> dsimp only <;> split <;> rfl

/-- A running tick appends exactly one history entry, whose move list is the
resolver's allowed list. -/
theorem tick_history (now : Nat) (s : GState) (h : s.running = true) :
    (tick now s).history = s.history ++
      [⟨s.tickCount,
        (resolvePhase (tickActionPhase now s).cs.units s.units s.deniedStreak now
          (tickActionPhase now s).pendingMoves).allowed,
        (tickActionPhase now s).cs.pendingAttacks,
        (((tickActionPhase now s).cs.units.filter (fun u => u.hp > 0)).map
          (fun u => ({ uid := u.uid, team := u.team, x := u.x, y := u.y, hp := u.hp }
            : UnitSnapshot)))⟩] := by
  unfold tick
  rw [if_neg (by simp [h])]
  dsimp only
  split
  · rw [endRound_history]
  · rfl

/-- The allowed moves built from a swap-free assignment map contain no
two-unit swap, given that the roster agrees with the snapshot on identities
and positions and the snapshot's positions are distinct. -/
theorem allowedOf_noswap (units snapshot : List GUnit) (u2d : List (Nat × Cell))
    (hsf : SwapFree (buildStartOcc snapshot) u2d)
    (hnd : (u2d.map Prod.fst).Nodup)
    (hpos : (snapshot.map posOf).Nodup)
    (hsh : units.map unitKey = snapshot.map unitKey) :
    NoSwapMoves (allowedOf units u2d) := by
  intro m1 hm1 m2 hm2 hne hsw
  obtain ⟨h12, h21⟩ := hsw
  rcases List.mem_filterMap.mp hm1 with ⟨⟨a, da⟩, hpa, hfa⟩
  rcases List.mem_filterMap.mp hm2 with ⟨⟨b, db⟩, hpb, hfb⟩
  rcases hfind1 : findUnit units a with _ | ua
  · rw [hfind1] at hfa; cases hfa
  rcases hfind2 : findUnit units b with _ | ub
  · rw [hfind2] at hfb; cases hfb
  rw [hfind1] at hfa
  rw [hfind2] at hfb
  simp only [Option.map_some'] at hfa hfb
  have hm1eq := (Option.some.inj hfa).symm
  have hm2eq := (Option.some.inj hfb).symm
  have hfind1' : units.find? (fun u => decide (u.uid = a)) = some ua := hfind1
  have hfind2' : units.find? (fun u => decide (u.uid = b)) = some ub := hfind2
  have hua_uid : ua.uid = a := by
    have hx := List.find?_some hfind1'
    simpa using hx
  have hub_uid : ub.uid = b := by
    have hx := List.find?_some hfind2'
    simpa using hx
  have hcorr1 := findUnit_unitKey hsh a
  have hcorr2 := findUnit_unitKey hsh b
  rw [hfind1] at hcorr1
  rw [hfind2] at hcorr2
  rcases hsf1 : findUnit snapshot a with _ | sa
  · rw [hsf1] at hcorr1; simp at hcorr1
  rcases hsf2 : findUnit snapshot b with _ | sb
  · rw [hsf2] at hcorr2; simp at hcorr2
  rw [hsf1] at hcorr1
  rw [hsf2] at hcorr2
  simp only [Option.map_some'] at hcorr1 hcorr2
  have hkey1 : unitKey ua = unitKey sa := Option.some.inj hcorr1
  have hkey2 : unitKey ub = unitKey sb := Option.some.inj hcorr2
  have hsf1' : snapshot.find? (fun u => decide (u.uid = a)) = some sa := hsf1
  have hsf2' : snapshot.find? (fun u => decide (u.uid = b)) = some sb := hsf2
  have hsa_mem : sa ∈ snapshot := List.mem_of_find?_eq_some hsf1'
  have hsb_mem : sb ∈ snapshot := List.mem_of_find?_eq_some hsf2'
  have hsa_uid : sa.uid = a := by
    have hx := List.find?_some hsf1'
    simpa using hx
  have hsb_uid : sb.uid = b := by
    have hx := List.find?_some hsf2'
    simpa using hx
  have hpos1 : posOf ua = posOf sa := congrArg Prod.snd hkey1
  have hpos2 : posOf ub = posOf sb := congrArg Prod.snd hkey2
  have hsocc1 : getA (posOf ua) (buildStartOcc snapshot) = some a := by
    rw [hpos1, buildStartOcc_getA hpos hsa_mem, hsa_uid]
  have hsocc2 : getA (posOf ub) (buildStartOcc snapshot) = some b := by
    rw [hpos2, buildStartOcc_getA hpos hsb_mem, hsb_uid]
  have hlook1 : getA a u2d = some da := getA_of_mem hnd hpa
  have hlook2 : getA b u2d = some db := getA_of_mem hnd hpb
  have hda : da = posOf ub := by
    have h12' : ((m1.toX, m1.toY) : Cell) = (m2.fromX, m2.fromY) := h12
    rw [hm1eq, hm2eq] at h12'
    simpa [posOf] using h12'
  have hdb : db = posOf ua := by
    have h21' : ((m2.toX, m2.toY) : Cell) = (m1.fromX, m1.fromY) := h21
    rw [hm1eq, hm2eq] at h21'
    simpa [posOf] using h21'
  have hab : a ≠ b := by
    intro hc
    apply hne
    rw [hm1eq, hm2eq]
    simp [hua_uid, hub_uid, hc]
  exact hsf a b (posOf ua) (posOf ub) hab hsocc1 hsocc2 (hda ▸ hlook1) (hdb ▸ hlook2)

/-- The resolver's allowed list is swap-free whenever the roster agrees with
the start-of-tick snapshot on identities and positions and the snapshot's
positions are pairwise distinct. -/
theorem resolvePhase_noswap (units snapshot : List GUnit) (streaks : List (Nat × Nat))
    (now : Nat) (pm : List MoveEv)
    (hpos : (snapshot.map posOf).Nodup)
    (hsh : units.map unitKey = snapshot.map unitKey) :
    NoSwapMoves (resolvePhase units snapshot streaks now pm).allowed := by
  unfold resolvePhase
  dsimp only
  exact allowedOf_noswap _ _ _ (runMatching_invariant _ _ _ _).1
    (runMatching_invariant _ _ _ _).2 hpos hsh

/-- C2: for every tick, the resolved move set contains no direct two-unit
swap - there are no two units u and v such that u is granted v's pre-tick
cell and v is granted u's pre-tick cell in the same resolution. Every
history entry a tick adds carries a swap-free move list (given distinct
pre-tick positions). The dfs swap guard (occAssigned equal to the searching
root) together with the seenUnits blocking makes a mutual exchange
unreachable. -/
theorem c2_no_swap (s : GState) (now : Nat) (hpos : (s.units.map posOf).Nodup) :
    ∀ entry ∈ (tick now s).history, entry ∈ s.history ∨ NoSwapMoves entry.moves := by
  intro entry hentry
  by_cases hrun : s.running = true
  · rw [tick_history now s hrun] at hentry
    rcases List.mem_append.mp hentry with h | h
    · exact Or.inl h
    · refine Or.inr ?_
      rw [List.mem_singleton] at h
      subst h
      exact resolvePhase_noswap _ _ _ _ _ hpos (tickActionPhase_unitKey now s)
  · have hb : s.running = false := by
      revert hrun; cases s.running <;> simp
    have hfix : tick now s = s := by
      unfold tick; rw [hb]; rfl
    rw [hfix] at hentry
    exact Or.inl hentry

/-- Witness for C2 on a concrete two-Soldier battle state. -/
theorem c2_no_swap_witness :
    ((c5State.units.map posOf).Nodup)
    ∧ (∀ entry ∈ (tick 1000 c5State).history,
        entry ∈ c5State.history ∨ NoSwapMoves entry.moves) :=
  ⟨by decide, c2_no_swap c5State 1000 (by decide)⟩
